import Mathlib

/-!
Verification of the movie/series renaming tools (`movie_tools.py`, `movie_tool.py`,
`trailer_dl.py`) against their natural-language specification.

The Python source is shallowly embedded: every definition below mirrors a function
of the source (same name where Lean allows it).  Strings are Lean `String`s /
`List Char`s, floats are `ℚ`, dictionaries become structures whose fields are the
keys the source reads (a missing key is the empty string / `0` / `none`, matching
Python falsiness where the source tests truthiness), and the filesystem is an
explicit state record.  Where the two source files carry diverging copies of a
function, both copies are embedded in separate namespaces (`MT` for
`movie_tools.py`, `MTool` for `movie_tool.py`); identical copies are embedded once.
-/

namespace MovieSpec

/-! ## Character classes

`isPySpace` models what Python's `re` module treats as `\s` (and `str.strip` /
`str.isspace` treat as whitespace) on the characters relevant here: ASCII
whitespace, the C1 separators, and the common Unicode space characters. -/

def isPySpace (c : Char) : Bool :=
  c = ' ' || c = '\t' || c = '\n' || c = '\r' || c = '\x0b' || c = '\x0c' ||
  c = '\x1c' || c = '\x1d' || c = '\x1e' || c = '\x1f' ||
  c = '\x85' || c = '\xa0' || c = ' ' ||
  (0x2000 ≤ c.toNat && c.toNat ≤ 0x200a) ||
  c = ' ' || c = ' ' || c = ' ' || c = ' ' || c = '　'

/-- Python `\w` (word character), ASCII fragment: letters, digits, underscore. -/
def isWordChar (c : Char) : Bool :=
  c.isAlphanum || c = '_'

/-- Python `str.lower`, ASCII fragment. -/
def pyLower (c : Char) : Char :=
  c.toLower

/-! ## Whitespace collapsing, stripping (re.sub(r"\s+"," ", s), str.strip, …) -/

/-- Helper for `collapseWS`: the flag records whether the previous character
was whitespace (in which case further whitespace is dropped). -/
def collapseWSGo : Bool → List Char → List Char
  | _, [] => []
  | inRun, c :: rest =>
    if isPySpace c then
      if inRun then collapseWSGo true rest else ' ' :: collapseWSGo true rest
    else c :: collapseWSGo false rest

/-- `re.sub(r"\s+", " ", s)`: each maximal run of whitespace becomes one space. -/
def collapseWS (l : List Char) : List Char :=
  collapseWSGo false l

/-- `str.lstrip()` on a char list. -/
def lstripWS (l : List Char) : List Char :=
  l.dropWhile isPySpace

/-- `str.rstrip()` on a char list. -/
def rstripWS (l : List Char) : List Char :=
  (l.reverse.dropWhile isPySpace).reverse

/-- `str.strip()` on a char list. -/
def stripWS (l : List Char) : List Char :=
  rstripWS (lstripWS l)

/-- `str.rstrip(".")` on a char list. -/
def rstripDot (l : List Char) : List Char :=
  (l.reverse.dropWhile (· = '.')).reverse

/-! ## Tokenisation used by `jaccard` -/

/-- Split a char list on a separator character, keeping empty fields
(Python `"a b".split(" ")` style). -/
def splitOnChar (sep : Char) (l : List Char) : List (List Char) :=
  l.splitOn sep

/-- `jaccard`'s inner `norm`:
`s = re.sub(r"[^\w\s]", " ", s.lower()); s = re.sub(r"\s+", " ", s).strip();
return [t for t in s.split(" ") if t]`. -/
def normTokens (s : String) : List String :=
  let l := s.data.map pyLower
  let l := l.map (fun c => if !(isWordChar c || isPySpace c) then ' ' else c)
  let l := stripWS (collapseWS l)
  ((splitOnChar ' ' l).filter (· ≠ [])).map List.asString

/-- Token-set Jaccard similarity (`jaccard` in both source files). -/
def jaccard (a b : String) : ℚ :=
  let A := (normTokens a).dedup
  let B := (normTokens b).dedup
  if A ≠ [] ∧ B ≠ [] then
    ((A.filter (fun t => B.contains t)).length : ℚ) /
      ((A ++ B.filter (fun t => !A.contains t)).length : ℚ)
  else 0

/-! ## Candidate records

Only the keys the scorers read are modelled.  A key that is missing or
`None`/empty in the Python dict is the empty string (resp. `0`). -/

structure MovieCand where
  title : String
  original_title : String
  release_date : String
  popularity : ℚ
  deriving Repr, DecidableEq

structure TvCand where
  name : String
  original_name : String
  first_air_date : String
  popularity : ℚ
  deriving Repr, DecidableEq

/-- `int(ds)` for a known-digit string, on char lists. -/
def digitsToNat (l : List Char) : Nat :=
  l.foldl (fun n c => n * 10 + (c.toNat - 48)) 0

/-- `int(ds) if ds.isdigit() else None` on char lists. -/
def charsToNat? (l : List Char) : Option Nat :=
  if l ≠ [] ∧ l.all Char.isDigit then some (digitsToNat l) else none

/-- `int(rd[:4]) if rd[:4].isdigit() else None` -/
def yearOfDate (rd : String) : Option Nat :=
  charsToNat? (rd.data.take 4)

/-- Python truthiness of the optional year (`if want_year and year:`). -/
def yearTruthy : Option Nat → Bool
  | none => false
  | some n => n ≠ 0

/-- Movie year-proximity table:
`1.0 if diff == 0 else (0.7 if diff == 1 else (0.4 if diff == 2 else 0.0))`. -/
def movieYearScore (wy y : Option Nat) : ℚ :=
  if yearTruthy wy ∧ yearTruthy y then
    let diff := Int.natAbs ((wy.getD 0 : ℤ) - (y.getD 0 : ℤ))
    if diff = 0 then 1 else if diff = 1 then 0.7 else if diff = 2 then 0.4 else 0
  else 0

/-- Series year-proximity table:
`1.0 if diff == 0 else (0.6 if diff == 1 else (0.3 if diff == 2 else 0.0))`. -/
def tvYearScore (wy y : Option Nat) : ℚ :=
  if yearTruthy wy ∧ yearTruthy y then
    let diff := Int.natAbs ((wy.getD 0 : ℤ) - (y.getD 0 : ℤ))
    if diff = 0 then 1 else if diff = 1 then 0.6 else if diff = 2 then 0.3 else 0
  else 0

/-- `min(float(c.get("popularity") or 0.0) / 200.0, 0.5)` -/
def popComponent (p : ℚ) : ℚ :=
  min (p / 200) 0.5

/-- `c.get("title") or c.get("original_title") or ""` -/
def MovieCand.shownTitle (c : MovieCand) : String :=
  if c.title ≠ "" then c.title else if c.original_title ≠ "" then c.original_title else ""

/-- `c.get("name") or c.get("original_name") or ""` -/
def TvCand.shownName (c : TvCand) : String :=
  if c.name ≠ "" then c.name else if c.original_name ≠ "" then c.original_name else ""

/-- Composite movie score: `sim * 0.65 + year_score * 0.25 + pop * 0.10`. -/
def scoreMovie (wantTitle : String) (wantYear : Option Nat) (c : MovieCand) : ℚ :=
  jaccard c.shownTitle wantTitle * 0.65 +
    movieYearScore wantYear (yearOfDate c.release_date) * 0.25 +
    popComponent c.popularity * 0.10

/-- Composite series score: `sim * 0.72 + year_score * 0.18 + pop * 0.10`. -/
def scoreTv (wantTitle : String) (wantYear : Option Nat) (c : TvCand) : ℚ :=
  jaccard c.shownName wantTitle * 0.72 +
    tvYearScore wantYear (yearOfDate c.first_air_date) * 0.18 +
    popComponent c.popularity * 0.10

/-- First element attaining the maximal score (Python: stable sort by score
descending, then `scored[0]`). -/
def argmaxFirst {α : Type} (f : α → ℚ) (c : α) (rest : List α) : α :=
  rest.foldl (fun best x => if f best < f x then x else best) c

/-- `re.fullmatch(r"(18(8|9)\d|19\d{2}|20\d{2})", want_title.strip())` -/
def isYearTitle (wantTitle : String) : Bool :=
  match stripWS wantTitle.data with
  | [c1, c2, c3, c4] =>
    ((c1 = '1' && c2 = '8' && (c3 = '8' || c3 = '9') && c4.isDigit) ||
     (c1 = '1' && c2 = '9' && c3.isDigit && c4.isDigit) ||
     (c1 = '2' && c2 = '0' && c3.isDigit && c4.isDigit))
  | _ => false

/-- Gate for the movie scorer:
`0.20 if re.fullmatch(year-regex, want_title.strip()) else 0.25`. -/
def movieGate (wantTitle : String) : ℚ :=
  if isYearTitle wantTitle then 0.20 else 0.25

/-- `choose_best_match` (identical in both source files). -/
def choose_best_match (cands : List MovieCand) (wantTitle : String)
    (wantYear : Option Nat) : Option MovieCand :=
  match cands with
  | [] => none
  | c :: rest =>
    let top := argmaxFirst (scoreMovie wantTitle wantYear) c rest
    if movieGate wantTitle ≤ scoreMovie wantTitle wantYear top then some top else none

/-- `choose_best_tv` (identical in both source files); gate `0.18`. -/
def choose_best_tv (cands : List TvCand) (wantTitle : String)
    (wantYear : Option Nat) : Option TvCand :=
  match cands with
  | [] => none
  | c :: rest =>
    let top := argmaxFirst (scoreTv wantTitle wantYear) c rest
    if (0.18 : ℚ) ≤ scoreTv wantTitle wantYear top then some top else none

/-- The popularity component as the specification words it:
candidate popularity clamped to [0, 200], then divided by 400
(linear rescale of [0,200] onto [0,0.5]). -/
def specPopComponent (p : ℚ) : ℚ :=
  min (max p 0) 200 / 400

/-! ## Trailer picking (`pick_best_trailer` in movie_tool.py,
`best_trailer_url` in movie_tools.py) -/

/-- `str.lower` over a whole string (ASCII fragment). -/
def pyLowerStr (s : String) : String :=
  (s.data.map pyLower).asString

/-- `str.upper` over a whole string (ASCII fragment). -/
def pyUpperStr (s : String) : String :=
  (s.data.map Char.toUpper).asString

/-- Substring containment on char lists: does `needle` occur contiguously? -/
def listContainsSub (needle : List Char) : List Char → Bool
  | [] => needle.isEmpty
  | h :: t => needle.isPrefixOf (h :: t) || listContainsSub needle t

/-- Python `needle in haystack` on strings (substring containment). -/
def pyInStr (needle haystack : String) : Bool :=
  listContainsSub needle.data haystack.data

/-- A TMDB video entry; only the keys the pickers read are modelled, a
missing/None value being the empty string (resp. `0`, `false`). -/
structure VideoCand where
  vtype : String
  site : String
  vname : String
  size : ℤ
  official : Bool
  iso_639_1 : String
  iso_3166_1 : String
  published_at : String
  key : String
  url : String
  deriving Repr, DecidableEq

/-- `prefer_norm = [_norm_lang(x) for x in (prefer_langs or []) if x] or ["en-us", "en"]` -/
def preferNorm (prefer_langs : List String) : List String :=
  let l := (prefer_langs.filter (· ≠ "")).map pyLowerStr
  if l = [] then ["en-us", "en"] else l

/-- The per-entry score of `pick_best_trailer` (movie_tool.py).  Python's
built-in `hash` on `str` is salted per process; it enters here as the explicit
parameter `h`, so one `h` models one process. -/
def scoreTrailer (h : String → ℤ) (prefer_norm : List String) (v : VideoCand) : ℚ :=
  let typ := pyLowerStr v.vtype
  let site := pyLowerStr v.site
  let nm := pyLowerStr v.vname
  let lang := pyLowerStr v.iso_639_1
  (if typ = "trailer" then 3 else if typ = "teaser" then 1 else 0) +
  (if v.official then 3 else 0) +
  (if site = "youtube" then 2 else 0) +
  (if v.size ≥ 1080 then 2 else if v.size ≥ 720 then 1 else 0) +
  (if pyInStr "official trailer" nm then 2 else if pyInStr "trailer" nm then 1 else 0) +
  (if lang ≠ "" then
    match prefer_norm.findIdx? (· = lang) with
    | some idx => if idx = 0 then 2 else 1
    | none =>
      if prefer_norm.any (fun p =>
          (lang = "en" && p.data.take 2 = ['e', 'n']) ||
          (p = "en" && lang.data.take 2 = ['e', 'n'])) then 1 else 0
   else 0.2) +
  ((h v.published_at % 1000 : ℤ) : ℚ) / 1000 * 1.5

/-- Does the entry qualify for the preferred pool: YouTube site plus a
non-empty (truthy) key. -/
def watchableYT (v : VideoCand) : Bool :=
  pyLowerStr v.site = "youtube" && v.key ≠ ""

def YOUTUBE_WATCH : String := "https://www.youtube.com/watch?v="

/-- `pick_best_trailer` (movie_tool.py lines 360–399).  `h` is the process's
string-hash function (see `scoreTrailer`).  The inner `[]` branch of the pool
match is unreachable (the pool is non-empty whenever `videos` is). -/
def pick_best_trailer (h : String → ℤ) (videos : List VideoCand)
    (prefer_langs : List String) : Option String :=
  match videos with
  | [] => none
  | _ :: _ =>
    let pn := preferNorm prefer_langs
    let yt := videos.filter watchableYT
    let pool := if yt.isEmpty then videos else yt
    match pool with
    | [] => none
    | p :: ps =>
      let best := argmaxFirst (scoreTrailer h pn) p ps
      if watchableYT best then some (YOUTUBE_WATCH ++ best.key) else none

/-- The per-entry score of `best_trailer_url` (movie_tools.py lines 981–996). -/
def scoreTrailerSimple (v : VideoCand) : ℚ :=
  (if pyLowerStr v.site = "youtube" then 3 else 0) +
  (if pyLowerStr v.vtype = "trailer" then 2 else 0) +
  (if v.official then 1 else 0) +
  (if pyUpperStr v.iso_3166_1 = "US" ∨ pyUpperStr v.iso_3166_1 = "GB" then 1 else 0)

/-- `best_trailer_url` (movie_tools.py lines 981–996). -/
def best_trailer_url (videos : List VideoCand) : Option String :=
  match videos with
  | [] => none
  | v0 :: rest =>
    let best := argmaxFirst scoreTrailerSimple v0 rest
    if watchableYT best then some (YOUTUBE_WATCH ++ best.key)
    else if best.url ≠ "" then some best.url
    else none

/-! ## Collision-safe path allocation (`ensure_unique_path`, identical in both
source files).

A `pathlib.Path` is modelled by the three pieces `ensure_unique_path` reads
(`parent`, `stem`, `suffix`), and the filesystem by the list of currently
existing rendered paths. -/

structure PyPath where
  parent : String
  stem : String
  ext : String
  deriving Repr, DecidableEq

def PyPath.render (p : PyPath) : String :=
  p.parent ++ "/" ++ p.stem ++ p.ext

/-- `Path.exists()` against the modelled filesystem. -/
def pathExists (fs : List String) (p : PyPath) : Bool :=
  fs.contains p.render

/-- Decimal rendering of a natural number (Python `f"{n}"`), with explicit
fuel to keep the recursion structural; `fuel > n` always suffices. -/
def natDigitsGo : Nat → Nat → List Char
  | 0, _ => []
  | fuel + 1, n =>
    if n < 10 then [Char.ofNat (48 + n)]
    else natDigitsGo fuel (n / 10) ++ [Char.ofNat (48 + n % 10)]

def natDigits (n : Nat) : List Char :=
  natDigitsGo (n + 1) n

/-- `parent / f"{base} ({n}){ext}"` -/
def candAt (dst : PyPath) (n : Nat) : PyPath :=
  ⟨dst.parent, dst.stem ++ " (" ++ (natDigits n).asString ++ ")", dst.ext⟩

/-- The `while True` loop of `ensure_unique_path`, starting at counter `n`.
The source loop is unbounded; here it carries fuel, and `fs.length + 1` fuel
is proven sufficient (some numbered candidate below that bound is free). -/
def ensure_unique_loop (fs : List String) (dst : PyPath) : Nat → Nat → Option PyPath
  | 0, _ => none
  | fuel + 1, n =>
    if pathExists fs (candAt dst n) then ensure_unique_loop fs dst fuel (n + 1)
    else some (candAt dst n)

/-- `ensure_unique_path` (movie_tools.py lines 861–869, movie_tool.py lines
450–458). -/
def ensure_unique_path (fs : List String) (dst : PyPath) : PyPath :=
  if pathExists fs dst then
    (ensure_unique_loop fs dst (fs.length + 1) 2).getD dst
  else dst

/-! ## Path-component sanitisation (`sanitize_component`)

The two source files carry slightly different copies: the movie_tools.py copy
(namespace `MT`) maps an all-stripped empty result to `"_"`; the movie_tool.py
copy (namespace `MTool`) has no such fallback.  The regex character classes
`[<>:"/\\|?*\x00-\x1F]` (movie_tools.py) and `[<>:"/\\\|?*\x00-\x1F]`
(movie_tool.py) denote the same character set. -/

def isIllegalWin (c : Char) : Bool :=
  c = '<' || c = '>' || c = ':' || c = '"' || c = '/' || c = '\\' ||
  c = '|' || c = '?' || c = '*' || c.toNat < 0x20

/-- `WIN_ILLEGAL_RE.sub(" ", name)` -/
def subIllegal (l : List Char) : List Char :=
  l.map (fun c => if isIllegalWin c then ' ' else c)

def RESERVED_WIN_NAMES : List String :=
  ["con", "prn", "aux", "nul",
   "com1", "com2", "com3", "com4", "com5", "com6", "com7", "com8", "com9",
   "lpt1", "lpt2", "lpt3", "lpt4", "lpt5", "lpt6", "lpt7", "lpt8", "lpt9"]

/-- The shared pipeline of both sanitizers:
`name = WIN_ILLEGAL_RE.sub(" ", name); name = re.sub(r"\s+", " ", name).strip().rstrip(".")`. -/
def sanitizeBase (name : String) : List Char :=
  rstripDot (stripWS (collapseWS (subIllegal name.data)))

namespace MT

/-- `sanitize_component` (movie_tools.py lines 650–657), with the
empty-fallback to `"_"`. -/
def sanitize_component (name : String) : String :=
  let l := MovieSpec.sanitizeBase name
  let l := if l = [] then ['_'] else l
  let s := l.asString
  if MovieSpec.RESERVED_WIN_NAMES.contains (MovieSpec.pyLowerStr s) then s ++ "_" else s

end MT

namespace MTool

/-- `sanitize_component` (movie_tool.py lines 222–227); no empty-fallback. -/
def sanitize_component (name : String) : String :=
  let s := (MovieSpec.sanitizeBase name).asString
  if MovieSpec.RESERVED_WIN_NAMES.contains (MovieSpec.pyLowerStr s) then s ++ "_" else s

end MTool

/-! ## Template rendering (`render_format`)

The two copies differ in two ways: each calls its own `sanitize_component`,
and the movie_tools.py copy additionally strips trailing `[ ._-]+` before
splitting into path components.  The common sub-steps are shared helpers
below, each mirroring one line of the source. -/

/-- A render context; numeric fields are optional (Python `None`). -/
structure RenderCtx where
  n : String
  y : Option Nat
  ny : String
  s : Option Nat
  e : Option Nat
  s00e00 : String
  t : String
  deriving Repr, DecidableEq

/-- `str(ctx.get("y", "") or "")` for an int-or-None year (0 is falsy). -/
def yStr : Option Nat → String
  | some v => if v = 0 then "" else (natDigits v).asString
  | none => ""

/-- `_pad2`: `f"{int(val):02d}" if val is not None else ""`. -/
def pad2 : Option Nat → String
  | some n => if n < 10 then "0" ++ (natDigits n).asString else (natDigits n).asString
  | none => ""

/-- Python `str.replace(pat, sub)` (all non-overlapping occurrences, left to
right), with explicit fuel; `fuel ≥ length of the subject` suffices and the
pattern is never empty at the call sites. -/
def replaceAllGo (pat sub : List Char) : Nat → List Char → List Char
  | _, [] => []
  | 0, s => s
  | fuel + 1, c :: rest =>
    if pat.isPrefixOf (c :: rest) ∧ pat ≠ [] then
      sub ++ replaceAllGo pat sub fuel ((c :: rest).drop pat.length)
    else c :: replaceAllGo pat sub fuel rest

def pyReplace (s pat sub : String) : String :=
  (replaceAllGo pat.data sub.data s.data.length s.data).asString

/-- The `safe` dict of `render_format`, in insertion order, built with the
given copy's `sanitize_component`. -/
def safeVals (san : String → String) (ctx : RenderCtx) : List (String × String) :=
  [("n", san ctx.n), ("y", yStr ctx.y), ("ny", san ctx.ny),
   ("s", pad2 ctx.s), ("e", pad2 ctx.e), ("s00e00", ctx.s00e00), ("t", san ctx.t)]

/-- `for k, v in safe.items(): out = out.replace("{"+k+"}", v)` -/
def substAll (vals : List (String × String)) (fmt : String) : List Char :=
  (vals.foldl (fun o kv => pyReplace o ("\x7b" ++ kv.1 ++ "\x7d") kv.2) fmt).data

/-- `re.sub(r"\s*-\s*$", "", out)`: drop one trailing dash with surrounding
whitespace, if present. -/
def subTrailingDash (l : List Char) : List Char :=
  let r := rstripWS l
  if h : r ≠ [] then (if r.getLast h = '-' then rstripWS r.dropLast else l) else l

/-- `re.sub(r"\(\s*\)", "", out)`: remove every `(`-whitespace-`)` group.
Fuel-structural; `fuel ≥ length` suffices. -/
def removeEmptyParensGo : Nat → List Char → List Char
  | _, [] => []
  | 0, s => s
  | fuel + 1, c :: rest =>
    if c = '(' then
      match rest.dropWhile isPySpace with
      | ')' :: tl => removeEmptyParensGo fuel tl
      | _ => c :: removeEmptyParensGo fuel rest
    else c :: removeEmptyParensGo fuel rest

def removeEmptyParens (l : List Char) : List Char :=
  removeEmptyParensGo l.length l

/-- The post-substitution cleanup shared by both copies:
`out = re.sub(r"\s+", " ", out).strip(); out = re.sub(r"\s*-\s*$", "", out);
out = re.sub(r"\(\s*\)", "", out)`. -/
def renderPost (l : List Char) : List Char :=
  removeEmptyParens (subTrailingDash (stripWS (collapseWS l)))

/-- `re.sub(r"[ ._-]+$", "", out)` — movie_tools.py only. -/
def rstripJunk (l : List Char) : List Char :=
  l.rdropWhile (fun c => c = ' ' || c = '.' || c = '_' || c = '-')

def isSlash (c : Char) : Bool :=
  c = '/' || c = '\\'

/-- `rel_path.strip().strip("/\\")` (the slash-stripping half). -/
def stripSlashes (l : List Char) : List Char :=
  ((l.dropWhile isSlash).reverse.dropWhile isSlash).reverse

/-- `_sanitize_path_components` with the given copy's `sanitize_component`:
split on runs of `/` or `\`, drop empty parts, sanitize each part.  The
result models `Path(*parts)` as the list of its components. -/
def sanitizePathParts (san : String → String) (l : List Char) : List String :=
  (((stripSlashes (stripWS l)).splitOnP isSlash).filter (· ≠ [])).map
    (fun p => san p.asString)

namespace MT

/-- `render_format` (movie_tools.py lines 685–706). -/
def render_format (fmt : String) (ctx : RenderCtx) : List String :=
  MovieSpec.sanitizePathParts MT.sanitize_component
    (MovieSpec.rstripJunk
      (MovieSpec.renderPost
        (MovieSpec.substAll (MovieSpec.safeVals MT.sanitize_component ctx) fmt)))

end MT

namespace MTool

/-- `render_format` (movie_tool.py lines 255–271); no trailing-junk strip. -/
def render_format (fmt : String) (ctx : RenderCtx) : List String :=
  MovieSpec.sanitizePathParts MTool.sanitize_component
    (MovieSpec.renderPost
      (MovieSpec.substAll (MovieSpec.safeVals MTool.sanitize_component ctx) fmt))

end MTool

/-! ## `parse_filename_basic` (identical regexes in both files; movie_tools.py
lines 1332–1347 via `slugify`, movie_tool.py lines 853–868 inline).

Each regex of the source is hand-compiled to a scanner below. -/

/-- `os.path.basename` (POSIX separator). -/
def pyBasename (path : List Char) : List Char :=
  (path.reverse.takeWhile (· ≠ '/')).reverse

/-- The stem part of `os.path.splitext`: split at the last dot unless every
character before it is a dot. -/
def stemOfBase (base : List Char) : List Char :=
  let rev := base.reverse
  let extRev := rev.takeWhile (· ≠ '.')
  if extRev.length = rev.length then base
  else
    let stem := (rev.drop (extRev.length + 1)).reverse
    if stem.any (fun c => c ≠ '.') then stem else base

/-- Episode digits after the `[Ee]`: `[Ee](\d{1,3})`. -/
def parseEDigits (l : List Char) : Option Nat :=
  match l with
  | e :: tl =>
    if e = 'E' || e = 'e' then
      let ds := tl.takeWhile Char.isDigit
      if ds ≠ [] then some (digitsToNat (ds.take 3)) else none
    else none
  | [] => none

/-- `[ ._-]?[Ee](\d{1,3})`: the optional separator is tried greedily first. -/
def seTail (l : List Char) : Option Nat :=
  (match l with
   | c :: tl =>
     if c = ' ' || c = '.' || c = '_' || c = '-' then parseEDigits tl else none
   | [] => none).orElse fun _ => parseEDigits l

/-- Match `[Ss](\d{1,2})[ ._-]?[Ee](\d{1,3})` at the current position
(greedy two-digit season first, then backtrack to one digit). -/
def matchSEAt (l : List Char) : Option (Nat × Nat) :=
  match l with
  | s :: rest =>
    if s = 'S' || s = 's' then
      let ds := rest.takeWhile Char.isDigit
      if 2 ≤ ds.length then
        match seTail (rest.drop 2) with
        | some e => some (digitsToNat (ds.take 2), e)
        | none =>
          match seTail (rest.drop 1) with
          | some e => some (digitsToNat (ds.take 1), e)
          | none => none
      else if ds.length = 1 then
        match seTail (rest.drop 1) with
        | some e => some (digitsToNat ds, e)
        | none => none
      else none
    else none
  | [] => none

/-- `re.search` of the SxxEyy pattern: leftmost match. -/
def findSE : List Char → Option (Nat × Nat)
  | [] => none
  | c :: rest =>
    match matchSEAt (c :: rest) with
    | some r => some r
    | none => findSE rest

/-- `x(\d{1,2})` tail of the NxM pattern (case-sensitive `x`). -/
def nxmTail (l : List Char) : Option Nat :=
  match l with
  | c :: tl =>
    if c = 'x' then
      let ds := tl.takeWhile Char.isDigit
      if ds ≠ [] then some (digitsToNat (ds.take 2)) else none
    else none
  | [] => none

/-- Match `(\d{1,2})x(\d{1,2})` at the current position. -/
def matchNxMAt (l : List Char) : Option (Nat × Nat) :=
  let ds := l.takeWhile Char.isDigit
  if 2 ≤ ds.length then
    match nxmTail (l.drop 2) with
    | some m => some (digitsToNat (ds.take 2), m)
    | none =>
      match nxmTail (l.drop 1) with
      | some m => some (digitsToNat (ds.take 1), m)
      | none => none
  else if ds.length = 1 then
    match nxmTail (l.drop 1) with
    | some m => some (digitsToNat ds, m)
    | none => none
  else none

/-- `re.search` of the NxM pattern: leftmost match. -/
def findNxM : List Char → Option (Nat × Nat)
  | [] => none
  | c :: rest =>
    match matchNxMAt (c :: rest) with
    | some r => some r
    | none => findNxM rest

/-- Word boundary on the left of the current position. -/
def boundaryBefore : Option Char → Bool
  | none => true
  | some c => !isWordChar c

/-- Word boundary on the right: end of string or a non-word character. -/
def boundaryAfter : List Char → Bool
  | [] => true
  | c :: _ => !isWordChar c

/-- `\b(19|20)\d{2}\b` at the current position; returns the four digits. -/
def matchYearAt (prev : Option Char) (l : List Char) : Option (List Char) :=
  if boundaryBefore prev then
    match l with
    | d1 :: d2 :: d3 :: d4 :: rest =>
      if ((d1 = '1' && d2 = '9') || (d1 = '2' && d2 = '0')) &&
          d3.isDigit && d4.isDigit && boundaryAfter rest then
        some [d1, d2, d3, d4]
      else none
    | _ => none
  else none

/-- `re.search(r"\b(19|20)\d{2}\b", base)`: leftmost match, as a string. -/
def findYearStr (prev : Option Char) : List Char → Option (List Char)
  | [] => none
  | c :: rest =>
    match matchYearAt prev (c :: rest) with
    | some r => some r
    | none => findYearStr (some c) rest

/-- Case-insensitive literal match returning the remaining suffix. -/
def litCI : List Char → List Char → Option (List Char)
  | [], l => some l
  | _ :: _, [] => none
  | p :: ps, c :: cs => if pyLower c = pyLower p then litCI ps cs else none

/-- Try the alternatives of the title-cut regex
`S\d+E\d+|\d+x\d+|(19|20)\d{2}|480p|720p|1080p|2160p|WEB[-.]DL|BluRay|HDR|x264|x265`
(case-insensitive) at the current position, each followed by `\b`. -/
def matchCleanAlt (l : List Char) : Bool :=
  -- S\d+E\d+\b
  (match l with
   | s :: rest =>
     (s = 'S' || s = 's') &&
       (let d1 := rest.takeWhile Char.isDigit
        d1 ≠ [] &&
          (match rest.drop d1.length with
           | e :: rest2 =>
             (e = 'E' || e = 'e') &&
               (let d2 := rest2.takeWhile Char.isDigit
                d2 ≠ [] && boundaryAfter (rest2.drop d2.length))
           | [] => false))
   | [] => false) ||
  -- \d+x\d+\b  (the leading \b is the shared one before the group)
  (let d1 := l.takeWhile Char.isDigit
   d1 ≠ [] &&
     (match l.drop d1.length with
      | x :: rest2 =>
        (x = 'x' || x = 'X') &&
          (let d2 := rest2.takeWhile Char.isDigit
           d2 ≠ [] && boundaryAfter (rest2.drop d2.length))
      | [] => false)) ||
  -- (19|20)\d{2}\b
  (match l with
   | d1 :: d2 :: d3 :: d4 :: rest =>
     ((d1 = '1' && d2 = '9') || (d1 = '2' && d2 = '0')) && d3.isDigit && d4.isDigit &&
       boundaryAfter rest
   | _ => false) ||
  -- fixed tokens, each followed by \b
  ([("480p" : String), "720p", "1080p", "2160p", "BluRay", "HDR", "x264", "x265"].any
    (fun t =>
      match litCI t.data l with
      | some rest => boundaryAfter rest
      | none => false)) ||
  -- WEB[-.]DL\b
  (match litCI "WEB".data l with
   | some (c :: rest2) =>
     (c = '-' || c = '.') &&
       (match litCI "DL".data rest2 with
        | some rest3 => boundaryAfter rest3
        | none => false)
   | _ => false)

/-- `re.sub(r"\b(...)\b.*", "", base)`: cut the string at the leftmost
boundary-anchored match of any alternative. -/
def cleanCut (prev : Option Char) : List Char → List Char
  | [] => []
  | c :: rest =>
    if boundaryBefore prev && matchCleanAlt (c :: rest) then []
    else c :: cleanCut (some c) rest

/-- `slugify` (movie_tools.py lines 1327–1330; inlined in movie_tool.py):
remove `[\\/:\*\?\"<>\|]`, collapse whitespace, strip; `"Unknown"` if empty. -/
def slugify (l : List Char) : String :=
  let t := l.filter (fun c =>
    !(c = '\\' || c = '/' || c = ':' || c = '*' || c = '?' || c = '"' ||
      c = '<' || c = '>' || c = '|'))
  let t := stripWS (collapseWS t)
  if t = [] then "Unknown" else t.asString

/-- `parse_filename_basic(path) -> (title, year, season, episode)`. -/
def parse_filename_basic (path : String) :
    String × Option String × Option Nat × Option Nat :=
  let base := stemOfBase (pyBasename path.data)
  let year := (findYearStr none base).map List.asString
  let se : Option (Nat × Nat) :=
    match findSE base with
    | some r => some r
    | none => findNxM base
  (slugify (cleanCut none base), year, se.map Prod.fst, se.map Prod.snd)

/-! ## `split_stem_year` and the NOISE_PATTERNS (identical in both files)

`re.sub(pat, " ", s)` is modelled by `regexSub m ' '` where `m prev l` returns
the length of pattern `pat`'s match at the current position (`prev` is the
preceding character, for `\b` / look-behind); scanning is leftmost and
resumes after each match, exactly as `re.sub` does. -/

def regexSubGo (m : Option Char → List Char → Option Nat) (rep : Char) :
    Nat → Option Char → List Char → List Char
  | _, _, [] => []
  | 0, _, l => l
  | fuel + 1, prev, c :: rest =>
    match m prev (c :: rest) with
    | some n =>
      if n = 0 then c :: regexSubGo m rep fuel (some c) rest
      else rep :: regexSubGo m rep fuel
        (((c :: rest).take n).getLast?) ((c :: rest).drop n)
    | none => c :: regexSubGo m rep fuel (some c) rest

def regexSub (m : Option Char → List Char → Option Nat) (rep : Char)
    (l : List Char) : List Char :=
  regexSubGo m rep l.length none l

/-- `re.sub(r"[._]+", " ", s)`'s matcher: a run of dots/underscores. -/
def dotUnderscoreRun (_ : Option Char) (l : List Char) : Option Nat :=
  let r := l.takeWhile (fun c => c = '.' || c = '_')
  if r ≠ [] then some r.length else none

/-- One case-insensitive literal alternative followed by `\b`. -/
def litTokB (tok : String) (l : List Char) : Option Nat :=
  match litCI tok.data l with
  | some rest => if boundaryAfter rest then some tok.data.length else none
  | none => none

/-- `pre[sep]?post\b` (case-insensitive), the separator tried greedily. -/
def litOptSep (pre : String) (sepOK : Char → Bool) (post : String)
    (l : List Char) : Option Nat :=
  match litCI pre.data l with
  | some rest =>
    (match rest with
     | c :: tl =>
       if sepOK c then
         match litCI post.data tl with
         | some r2 =>
           if boundaryAfter r2 then some (pre.data.length + 1 + post.data.length)
           else none
         | none => none
       else none
     | [] => none).orElse (fun _ =>
      match litCI post.data rest with
      | some r2 =>
        if boundaryAfter r2 then some (pre.data.length + post.data.length) else none
      | none => none)
  | none => none

/-- `\b(?:alts)\b` for plain literal alternatives, in priority order. -/
def matchAltsB (alts : List String) (prev : Option Char) (l : List Char) :
    Option Nat :=
  if boundaryBefore prev then alts.findSome? (fun tok => litTokB tok l) else none

/-- A disjunction of position-matchers sharing the leading `\b`. -/
def matchAltsFnB (alts : List (List Char → Option Nat)) (prev : Option Char)
    (l : List Char) : Option Nat :=
  if boundaryBefore prev then alts.findSome? (fun f => f l) else none

/-- `ddp?[\- ]?\d\.\d\b` of noise pattern 8, all backtracking expanded. -/
def matchDdp (l : List Char) : Option Nat :=
  let tail3 : Nat → List Char → Option Nat := fun off t =>
    match t with
    | d1 :: dot :: d2 :: rest =>
      if d1.isDigit && dot = '.' && d2.isDigit && boundaryAfter rest then
        some (off + 3)
      else none
    | _ => none
  match litCI "dd".data l with
  | some rest =>
    (match rest with
     | c1 :: tl1 =>
       if pyLower c1 = 'p' then
         (match tl1 with
          | c2 :: tl2 => if c2 = '-' || c2 = ' ' then tail3 5 tl2 else none
          | [] => none).orElse (fun _ => tail3 4 tl1)
       else none
     | [] => none).orElse (fun _ =>
      (match rest with
       | c2 :: tl2 => if c2 = '-' || c2 = ' ' then tail3 4 tl2 else none
       | [] => none).orElse (fun _ => tail3 3 rest))
  | none => none

/-- `\[(?:.*?)\]|\((?:sample)\)` of noise pattern 10 (no word boundaries). -/
def matchBracketNoise (_ : Option Char) (l : List Char) : Option Nat :=
  (match l with
   | '[' :: rest =>
     match rest.findIdx? (fun c => c = ']') with
     | some i => some (i + 2)
     | none => none
   | _ => none).orElse (fun _ =>
    match litCI "(sample)".data l with
    | some _ => some 8
    | none => none)

/-- The ten NOISE_PATTERNS, in source order, as position matchers. -/
def noiseMatchers : List (Option Char → List Char → Option Nat) :=
  [matchAltsB ["480p", "720p", "1080p", "2160p", "4k", "8k"],
   matchAltsFnB [litTokB "hdr10",
     litOptSep "dolby" (fun c => isPySpace c || c = '-') "vision",
     litTokB "dv", litTokB "hdr", litTokB "sdr"],
   matchAltsFnB [litTokB "webrip", litOptSep "web" (fun c => c = '-') "dl",
     litTokB "bluray", litTokB "bdrip", litTokB "brrip", litTokB "hdtv",
     litTokB "dvdrip", litTokB "dvdscr", litTokB "cam", litTokB "hdcam",
     litTokB "dcam", litTokB "r5", litTokB "r6"],
   matchAltsB ["x264", "x265", "h264", "h265", "hevc", "av1", "xvid", "divx"],
   matchAltsB ["yts", "yify", "rarbg", "evo", "etrg", "sparks", "spark",
     "amiable", "ntb", "tge", "ctrlhd", "fgt", "fg", "galaxyrg"],
   matchAltsB ["proper", "real", "repack", "extended", "unrated",
     "directors. cut", "directors cut", "remastered", "imax"],
   matchAltsB ["multilang", "multi", "dubbed", "dubbe", "subbed", "subbe"],
   matchAltsFnB [litTokB "aac", litTokB "dts-hd", litTokB "dts",
     litTokB "truehd", litTokB "atmos", matchDdp],
   matchAltsB ["sample"],
   matchBracketNoise]

/-- `(?<!\d)(18(8|9)\d|19\d{2}|20\d{2})(?!\d)` at the current position. -/
def matchYearLA (prev : Option Char) (l : List Char) : Option (List Char) :=
  if (match prev with | some c => !c.isDigit | none => true) then
    match l with
    | d1 :: d2 :: d3 :: d4 :: rest =>
      if (((d1 = '1' && d2 = '8') && (d3 = '8' || d3 = '9') && d4.isDigit) ||
          (d1 = '1' && d2 = '9' && d3.isDigit && d4.isDigit) ||
          (d1 = '2' && d2 = '0' && d3.isDigit && d4.isDigit)) &&
          (match rest with | c :: _ => !c.isDigit | [] => true) then
        some [d1, d2, d3, d4]
      else none
    | _ => none
  else none

/-- The last year match of `finditer` (non-overlapping, left to right). -/
def lastYearGo : Nat → Option Char → List Char → Option Nat → Option Nat
  | _, _, [], acc => acc
  | 0, _, _, acc => acc
  | fuel + 1, prev, c :: rest, acc =>
    match matchYearLA prev (c :: rest) with
    | some ds =>
      lastYearGo fuel (ds.getLast?) ((c :: rest).drop 4) (some (digitsToNat ds))
    | none => lastYearGo fuel (some c) rest acc

def lastYear (l : List Char) : Option Nat :=
  lastYearGo l.length none l none

/-- `s.rfind(pat)`: index of the last occurrence, if any. -/
def rfindSub (pat : List Char) (l : List Char) : Option Nat :=
  let rec go (i : Nat) (cur : List Char) (acc : Option Nat) : Option Nat :=
    match cur with
    | [] => if pat.isPrefixOf [] && acc = none then some i else acc
    | _ :: tl =>
      go (i + 1) tl (if pat.isPrefixOf cur then some i else acc)
  go 0 l none

/-- `str.strip(" -._()[]\x7b\x7d")`: strip those characters from both ends. -/
def stripTitleChars (l : List Char) : List Char :=
  let inSet : Char → Bool := fun c =>
    c = ' ' || c = '-' || c = '.' || c = '_' || c = '(' || c = ')' ||
    c = '[' || c = ']' || c = '\x7b' || c = '\x7d'
  ((l.dropWhile inSet).reverse.dropWhile inSet).reverse

/-- `split_stem_year` (movie_tools.py lines 659–671, movie_tool.py lines
229–241). -/
def split_stem_year (stem : String) : String × Option Nat :=
  let s := regexSub dotUnderscoreRun ' ' stem.data
  let s := noiseMatchers.foldl (fun acc m => regexSub m ' ' acc) s
  let s := stripWS (collapseWS s)
  match lastYear s with
  | none => (if s = [] then stem else s.asString, none)
  | some y =>
    let title :=
      match rfindSub (natDigits y) s with
      | some i => stripWS (stripTitleChars (s.take i))
      | none => s
    ((if title = [] then stem else title.asString), some y)

/-! ## `normalize_show_hint`, `season_folder_parent`, and the TV fallback
chain (`try_tv_match_with_fallbacks`, movie_tools.py lines 1143–1191).

A `pathlib.Path` is modelled by its list of components (file name last);
`str(path)` joins them with `/`. -/

/-- `[\(\[][^)\]]{0,12}[\)\]]`: a short bracket/paren group. -/
def matchShortBracket (_ : Option Char) (l : List Char) : Option Nat :=
  match l with
  | c :: rest =>
    if c = '(' || c = '[' then
      let run := rest.takeWhile (fun d => !(d = ')' || d = ']'))
      if run.length ≤ 12 then
        match rest.drop run.length with
        | _ :: _ => some (run.length + 2)
        | [] => none
      else none
    else none
  | [] => none

/-- The junk alternation of `normalize_show_hint`, in source order. -/
def showHintJunk : Option Char → List Char → Option Nat :=
  matchAltsFnB [litTokB "1080p", litTokB "2160p", litTokB "720p", litTokB "4k",
    litTokB "webrip", litOptSep "web" (fun c => c = '-' || c = ' ') "dl",
    litTokB "bluray", litTokB "bdrip", litTokB "brrip", litTokB "hdtv",
    litTokB "x264", litTokB "x265", litTokB "h264", litTokB "h265",
    litTokB "hevc", litTokB "av1", litTokB "hdr10", litTokB "hdr",
    litTokB "dv", litTokB "sdr", litTokB "multi", litTokB "dubbed",
    litTokB "subbed"]

/-- `normalize_show_hint` (movie_tools.py lines 1112–1120). -/
def normalize_show_hint (txt : String) : String :=
  let s := regexSub dotUnderscoreRun ' ' txt.data
  let s := regexSub matchShortBracket ' ' s
  let s := regexSub showHintJunk ' ' s
  (stripWS (collapseWS s)).asString

/-- Does `tok` occur with word boundaries on both sides (case-insensitive)? -/
def containsTokB (tok : String) (l : List Char) : Bool :=
  let rec go (prev : Option Char) : List Char → Bool
    | [] => false
    | c :: rest =>
      (boundaryBefore prev && (litTokB tok (c :: rest)).isSome) || go (some c) rest
  go none l

/-- Case-insensitive substring containment. -/
def containsCI (tok : String) : List Char → Bool
  | [] => tok.data.isEmpty
  | c :: rest => (litCI tok.data (c :: rest)).isSome || containsCI tok rest

/-- `re.search(r"(?i)\bseason\b|\bseizoen\b|saison|staffel|temporada", name)` -/
def seasonFolderName (name : String) : Bool :=
  containsTokB "season" name.data || containsTokB "seizoen" name.data ||
  containsCI "saison" name.data || containsCI "staffel" name.data ||
  containsCI "temporada" name.data

def pathStr (comps : List String) : String :=
  String.intercalate "/" comps

def parentComps (comps : List String) : List String :=
  comps.dropLast

def pathName (comps : List String) : String :=
  (comps.getLast?).getD ""

/-- `season_folder_parent` (movie_tools.py lines 1122–1126). -/
def season_folder_parent (comps : List String) : Option (List String) :=
  let p := parentComps comps
  if seasonFolderName (pathName p) then some (parentComps p) else none

/-- `re.search(r"[A-Za-z]", s)` -/
def hasLetter (s : String) : Bool :=
  s.data.any (fun c => ('A' ≤ c && c ≤ 'Z') || ('a' ≤ c && c ≤ 'z'))

/-- `_safe_int`: `int(txt) if txt and str(txt).isdigit() else None`. -/
def safe_int : Option String → Option Nat
  | some s => if s ≠ "" ∧ s.data.all Char.isDigit then some (digitsToNat s.data) else none
  | none => none

/-- The ordered candidate list built by `try_tv_match_with_fallbacks` before
de-duplication: forced show, secondary-tokenizer parse of the filename, the
normalized guess, then the parent chain (the grandparent is prepended when
the parent is season-named, but the parent itself is still walked). -/
def tvCandidateList (force_show : Option String) (force_year : Option Nat)
    (comps : List String) (title_guess : String) (year_guess : Option Nat) :
    List (String × Option Nat) :=
  let c1 := match force_show with
    | some fs => if fs ≠ "" then [(normalize_show_hint fs, force_year)] else []
    | none => []
  let tp := (parse_filename_basic (pathStr comps)).1
  let yp := (parse_filename_basic (pathStr comps)).2.1
  let c2 := if tp ≠ "" ∧ hasLetter tp then
    [(normalize_show_hint tp, safe_int yp)] else []
  let c3 := if title_guess ≠ "" ∧ hasLetter title_guess then
    [(normalize_show_hint title_guess, year_guess)] else []
  let chain := (match season_folder_parent comps with
    | some p => [p]
    | none => []) ++ [parentComps comps, parentComps (parentComps comps)]
  let c4 := chain.flatMap (fun par =>
    if par ≠ [] ∧ par ≠ comps ∧ pathName par ≠ "" then
      let t := normalize_show_hint (split_stem_year (pathName par)).1
      let y := (split_stem_year (pathName par)).2
      if t ≠ "" ∧ hasLetter t then [(t, y)] else []
    else [])
  c1 ++ c2 ++ c3 ++ c4

/-- De-duplication by lower-cased title, keeping the first occurrence. -/
def dedupByLowerGo (seen : List String) :
    List (String × Option Nat) → List (String × Option Nat)
  | [] => []
  | (t, y) :: rest =>
    if seen.contains (pyLowerStr t) then dedupByLowerGo seen rest
    else (t, y) :: dedupByLowerGo (pyLowerStr t :: seen) rest

def dedupByLower (l : List (String × Option Nat)) : List (String × Option Nat) :=
  dedupByLowerGo [] l

/-- The query loop: each candidate is tried with year omitted, then with its
year; the first gate-clearing result wins.  `search` is the TMDB search
oracle. -/
def resolveLoop (search : String → Option Nat → List TvCand) :
    List (String × Option Nat) → Option TvCand
  | [] => none
  | (t, y) :: rest =>
    match choose_best_tv (search t none) t none with
    | some s => some s
    | none =>
      match choose_best_tv (search t y) t y with
      | some s => some s
      | none => resolveLoop search rest

/-- `try_tv_match_with_fallbacks` (movie_tools.py lines 1143–1191), with the
network search as an oracle parameter. -/
def try_tv_match_with_fallbacks (search : String → Option Nat → List TvCand)
    (force_show : Option String) (force_year : Option Nat)
    (comps : List String) (title_guess : String) (year_guess : Option Nat) :
    Option TvCand :=
  resolveLoop search
    (dedupByLower (tvCandidateList force_show force_year comps title_guess year_guess))

/-- The flat query sequence `[(t, None), (t, y)]` per candidate. -/
def queryPairs (cands : List (String × Option Nat)) : List (String × Option Nat) :=
  cands.flatMap (fun ty => [(ty.1, none), ty])

/-- First `some` result of `f` along a list. -/
def firstSome {α β : Type} (f : α → Option β) : List α → Option β
  | [] => none
  | a :: rest =>
    match f a with
    | some b => some b
    | none => firstSome f rest

/-! ## Filesystem effects of the pipeline steps (for the dry-run property)

The filesystem is the set of existing rendered file and directory paths.
Each function below mirrors one mutating step of the source, with its
logging elided and the network/subprocess outcome taken as the success path
(or an oracle); what matters here is which state changes are guarded by
`dry_run` and which are not. -/

structure FS where
  files : List String
  dirs : List String
  deriving Repr, DecidableEq

/-- `d.mkdir(parents=True, exist_ok=True)`, modelled at the leaf directory. -/
def mkdirP (d : String) (fs : FS) : FS :=
  ⟨fs.files, if fs.dirs.contains d then fs.dirs else d :: fs.dirs⟩

/-- The textual parent of a rendered path (text before the last `/`). -/
def dirOf (p : String) : String :=
  (((p.data.reverse.dropWhile (· ≠ '/')).drop 1).reverse).asString

/-- The rename step of `process_video` / `process_series_file`:
`if not dry_run: dest.parent.mkdir(...); shutil.move(src, dest)`. -/
def rename_move (dry : Bool) (src dst : String) (fs : FS) : FS :=
  if dry then fs
  else
    let fs1 := mkdirP (dirOf dst) fs
    ⟨dst :: fs1.files.erase src, fs1.dirs⟩

def SUB_EXTS : List String :=
  [".srt", ".ass", ".ssa", ".sub", ".idx", ".vtt"]

/-- The extension part of a base name (complement of `stemOfBase`). -/
def extOfBase (base : List Char) : List Char :=
  base.drop (stemOfBase base).length

/-- `move_sidecars`: for each sidecar in the source directory whose name
starts with the source stem (case-insensitively) and whose suffix is a
subtitle extension, move it next to the destination stem; each move is
guarded by `dry_run` inside the loop. -/
def move_sidecars (dry : Bool) (srcFile destStem : String) (fs : FS) : FS :=
  let parent := dirOf srcFile
  let srcStem := stemOfBase (pyBasename srcFile.data)
  let cands := fs.files.filter (fun p =>
    p ≠ srcFile && dirOf p = parent &&
    (srcStem.map pyLower).isPrefixOf ((pyBasename p.data).map pyLower) &&
    SUB_EXTS.contains ((extOfBase (pyBasename p.data)).map pyLower).asString)
  cands.foldl (fun acc p =>
    if !dry then
      let pname := pyBasename p.data
      let psuf := extOfBase pname
      let extra := (pname.drop srcStem.length).take (pname.length - srcStem.length - psuf.length)
      let dst := dirOf destStem ++ "/" ++ (pyBasename destStem.data).asString ++
        extra.asString ++ psuf.asString
      ⟨dst :: acc.files.erase p, (mkdirP (dirOf dst) acc).dirs⟩
    else acc) fs

/-- `re.search(r"(?i)\bsample\b", name)` for the sample-directory check. -/
def isSampleName (name : String) : Bool :=
  containsTokB "sample" name.data

def pyEndsWith (suf s : String) : Bool :=
  suf.data.reverse.isPrefixOf s.data.reverse

def pyStartsWith (pre s : String) : Bool :=
  pre.data.isPrefixOf s.data

/-- The CLUTTER_FILES patterns (all `(?i)`), as one name predicate. -/
def clutterMatch (name : String) : Bool :=
  let ln := pyLowerStr name
  (pyStartsWith "rarbg" ln && pyEndsWith ".txt" ln) ||
  pyStartsWith "sample" ln ||
  pyEndsWith ".nfo" ln || pyEndsWith ".sfv" ln || pyEndsWith ".nzb" ln ||
  pyEndsWith ".torrent" ln ||
  (["readme", "thanks", "how to", "instructions", "verify", "serial",
    "keygen"].any (fun pre => pyStartsWith pre ln) && pyEndsWith ".txt" ln)

/-- `shutil.rmtree(d)`: remove the directory and everything below it. -/
def rmtreeUnder (d : String) (fs : FS) : FS :=
  ⟨fs.files.filter (fun p => !(d ++ "/").data.isPrefixOf p.data),
   fs.dirs.filter (fun p => !(p = d || ((d ++ "/").data.isPrefixOf p.data)))⟩

def nameOf (p : String) : String :=
  (pyBasename p.data).asString

/-- `clean_clutter`: in an existing directory, remove sample-named
subdirectories and clutter-matching files; each removal is guarded by
`dry_run`. -/
def clean_clutter (dry : Bool) (folder : String) (fs : FS) : FS :=
  if !(fs.dirs.contains folder) then fs
  else
    let subdirs := fs.dirs.filter (fun d => dirOf d = folder)
    let fs1 := subdirs.foldl (fun acc d =>
      if isSampleName (nameOf d) && !dry then rmtreeUnder d acc else acc) fs
    let entries := fs.files.filter (fun p => dirOf p = folder)
    entries.foldl (fun acc p =>
      if clutterMatch (nameOf p) && !dry then ⟨acc.files.erase p, acc.dirs⟩
      else acc) fs1

def pathDepth (d : String) : Nat :=
  d.data.count '/'

def insertByDepth (d : String) : List String → List String
  | [] => [d]
  | e :: rest =>
    if pathDepth e ≤ pathDepth d then d :: e :: rest else e :: insertByDepth d rest

/-- Directories deepest first (the `os.walk(topdown=False)` order). -/
def sortByDepthDesc (l : List String) : List String :=
  l.foldr insertByDepth []

/-- `prune_empty_dirs`: bottom-up under the root (root excluded), remove a
directory when it has no children; removal guarded by `dry_run`. -/
def prune_empty_dirs (dry : Bool) (root : String) (fs : FS) : FS :=
  let ds := sortByDepthDesc (fs.dirs.filter
    (fun d => (root ++ "/").data.isPrefixOf d.data))
  ds.foldl (fun acc d =>
    if acc.files.all (fun f => dirOf f ≠ d) &&
        acc.dirs.all (fun d2 => dirOf d2 ≠ d) && !dry then
      ⟨acc.files, acc.dirs.erase d⟩
    else acc) fs

/-- The poster file written by `download_poster`. -/
def posterTarget (out_dir : String) : String :=
  out_dir ++ "/" ++ MT.sanitize_component ((pyBasename out_dir.data).asString) ++
    " - poster.jpg"

/-- `download_poster` (movie_tools.py lines 924–951): note that
`out_dir.mkdir(parents=True, exist_ok=True)` runs BEFORE the `dry_run`
check; the non-dry branch is the success path of the download. -/
def download_poster (dry : Bool) (posterPath : String) (out_dir : String)
    (fs : FS) : FS :=
  if posterPath = "" then fs
  else
    let fs1 := mkdirP out_dir fs
    if dry then fs1
    else ⟨posterTarget out_dir :: fs1.files, fs1.dirs⟩

/-- `download_trailer_with_ytdlp` (movie_tool.py lines 551 ff., movie_tools.py
lines 132–153): `out_dir.mkdir(parents=True, exist_ok=True)` runs BEFORE the
`dry_run` check; the external fetcher's outcome is the oracle `fetched`. -/
def download_trailer_with_ytdlp (dry : Bool) (out_dir : String)
    (fetched : Option String) (fs : FS) : FS :=
  let fs1 := mkdirP out_dir fs
  if dry then fs1
  else
    match fetched with
    | some f => ⟨f :: fs1.files, fs1.dirs⟩
    | none => fs1

end MovieSpec

namespace MovieSpec

/-! ## Theorems for C2 and C3 -/

theorem argmaxFirst_mem {α : Type} (f : α → ℚ) (c : α) (rest : List α) :
    argmaxFirst f c rest = c ∨ argmaxFirst f c rest ∈ rest := by
  unfold argmaxFirst
  induction rest generalizing c with
  | nil => left; rfl
  | cons x xs ih =>
    simp only [List.foldl_cons]
    rcases ih (if f c < f x then x else c) with h | h
    · by_cases hc : f c < f x
      · right; rw [h, if_pos hc]; exact List.mem_cons_self _ _
      · left; rw [h, if_neg hc]
    · right; exact List.mem_cons_of_mem _ h

/-- C2: whenever `choose_best_match` (resp. `choose_best_tv`) returns a
candidate, that candidate's composite score is at or above the gate for its
category: 0.25 for movies, 0.20 when the query title is purely a 4-digit year
string, 0.18 for series. -/
theorem chooseBest_clears_gate :
    (∀ (cands : List MovieCand) (wt : String) (wy : Option Nat) (c : MovieCand),
        choose_best_match cands wt wy = some c →
          (if isYearTitle wt then (0.20 : ℚ) else 0.25) ≤ scoreMovie wt wy c) ∧
    (∀ (cands : List TvCand) (wt : String) (wy : Option Nat) (c : TvCand),
        choose_best_tv cands wt wy = some c → (0.18 : ℚ) ≤ scoreTv wt wy c) := by
  constructor
  · intro cands wt wy c h
    match cands with
    | [] => simp [choose_best_match] at h
    | c0 :: rest =>
      simp only [choose_best_match] at h
      split at h
      · rename_i hgate
        cases h
        simpa [movieGate] using hgate
      · cases h
  · intro cands wt wy c h
    match cands with
    | [] => simp [choose_best_tv] at h
    | c0 :: rest =>
      simp only [choose_best_tv] at h
      split at h
      · rename_i hgate
        cases h
        exact hgate
      · cases h

theorem chooseBest_clears_gate_witness :
    choose_best_match [⟨"x", "", "", 0⟩] "x" none = some ⟨"x", "", "", 0⟩ ∧
      (if isYearTitle "x" then (0.20 : ℚ) else 0.25) ≤
        scoreMovie "x" none ⟨"x", "", "", 0⟩ := by
  have htok : (normTokens "x").dedup = ["x"] := by decide
  have hsim : jaccard (MovieCand.shownTitle ⟨"x", "", "", 0⟩) "x" = 1 := by
    have hshown : MovieCand.shownTitle ⟨"x", "", "", 0⟩ = "x" := by decide
    rw [jaccard, hshown, htok]
    norm_num
  have hscore : scoreMovie "x" none ⟨"x", "", "", 0⟩ = 0.65 := by
    rw [scoreMovie, hsim]
    have hy : yearOfDate ("" : String) = none := by decide
    rw [hy]
    norm_num [movieYearScore, yearTruthy, popComponent]
  have heval : choose_best_match [⟨"x", "", "", 0⟩] "x" none = some ⟨"x", "", "", 0⟩ := by
    have hgate : movieGate "x" = 0.25 := by
      have : isYearTitle "x" = false := by decide
      simp [movieGate, this]
    simp only [choose_best_match, argmaxFirst, List.foldl_nil]
    rw [if_pos]
    rw [hgate, hscore]
    norm_num
  refine ⟨heval, chooseBest_clears_gate.1 _ _ _ _ heval⟩

/-! C3: the spec claims the popularity component is
`clamp(popularity, 0, 200) / 400`; the code computes `min(popularity/200, 0.5)`.
These disagree (e.g. at popularity 100). -/

theorem jaccard_single_x : jaccard "x" "x" = 1 := by
  have htok : (normTokens "x").dedup = ["x"] := by decide
  rw [jaccard, htok]
  norm_num

/-- C3 counterexample: for a candidate with popularity 100 and an exactly
matching one-word title, the composite score computed by the code differs from
the composite score obtained with the claimed popularity component
`clamp(popularity, 0, 200) / 400`, for the movie scorer and the series scorer
alike. -/
theorem popularity_component_counterexample :
    scoreMovie "x" none ⟨"x", "", "", 100⟩ ≠
      jaccard "x" "x" * 0.65 +
        movieYearScore none (yearOfDate "") * 0.25 + specPopComponent 100 * 0.10 ∧
    scoreTv "x" none ⟨"x", "", "", 100⟩ ≠
      jaccard "x" "x" * 0.72 +
        tvYearScore none (yearOfDate "") * 0.18 + specPopComponent 100 * 0.10 := by
  have hsim := jaccard_single_x
  have hy : yearOfDate ("" : String) = none := by decide
  have hshownM : MovieCand.shownTitle ⟨"x", "", "", 100⟩ = "x" := by decide
  have hshownT : TvCand.shownName ⟨"x", "", "", 100⟩ = "x" := by decide
  constructor
  · rw [scoreMovie, hshownM, hsim, hy]
    norm_num [movieYearScore, yearTruthy, popComponent, specPopComponent]
  · rw [scoreTv, hshownT, hsim, hy]
    norm_num [tvYearScore, yearTruthy, popComponent, specPopComponent]

/-- C3 amended: in both scorers the popularity component equals
`popularity/200` capped at `0.5` (the cap is reached at popularity 100, and a
negative popularity is not clamped up to 0): the composite score decomposes as
the weighted sum with that component. -/
theorem popularity_component_amended :
    ∀ (wt : String) (wy : Option Nat),
      (∀ c : MovieCand,
        scoreMovie wt wy c =
          jaccard c.shownTitle wt * 0.65 +
            movieYearScore wy (yearOfDate c.release_date) * 0.25 +
            (if c.popularity ≤ 100 then c.popularity / 200 else 1/2) * 0.10) ∧
      (∀ c : TvCand,
        scoreTv wt wy c =
          jaccard c.shownName wt * 0.72 +
            tvYearScore wy (yearOfDate c.first_air_date) * 0.18 +
            (if c.popularity ≤ 100 then c.popularity / 200 else 1/2) * 0.10) := by
  have hpop : ∀ p : ℚ, popComponent p = if p ≤ 100 then p / 200 else 1/2 := by
    intro p
    rw [popComponent]
    rcases le_or_lt p 100 with h | h
    · have hle : p / 200 ≤ (0.5 : ℚ) := by
        rw [div_le_iff₀ (by norm_num : (0:ℚ) < 200)]
        norm_num
        linarith
      rw [if_pos h, min_eq_left hle]
    · have hle : (0.5 : ℚ) ≤ p / 200 := by
        rw [le_div_iff₀ (by norm_num : (0:ℚ) < 200)]
        norm_num
        linarith
      rw [if_neg (not_le.mpr h), min_eq_right hle]
      norm_num
  intro wt wy
  exact ⟨fun c => by rw [scoreMovie, hpop], fun c => by rw [scoreTv, hpop]⟩

/-! ## Theorems for C7 and C8 (trailer picking) -/

theorem argmaxFirst_congr {α : Type} (f g : α → ℚ) (c : α) (rest : List α)
    (h : ∀ x ∈ c :: rest, f x = g x) :
    argmaxFirst f c rest = argmaxFirst g c rest := by
  unfold argmaxFirst
  induction rest generalizing c with
  | nil => rfl
  | cons x xs ih =>
    simp only [List.foldl_cons]
    have hc : f c = g c := h c (List.mem_cons_self _ _)
    have hx : f x = g x := h x (List.mem_cons_of_mem _ (List.mem_cons_self _ _))
    rw [hc, hx]
    exact ih _ (fun y hy => by
      rcases List.mem_cons.mp hy with hy | hy
      · subst hy
        split <;> [exact hx; exact hc]
      · exact h y (List.mem_cons_of_mem _ (List.mem_cons_of_mem _ hy)))

/-- C7 counterexample: a non-empty candidate list with no YouTube-with-key
entry for which both trailer pickers return `none` — refuting the claim that
such a list always yields a watchable URL. -/
theorem trailer_graceful_counterexample :
    [(⟨"Trailer", "Vimeo", "Official Trailer", 1080, true, "en", "US",
        "2020-01-01T00:00:00Z", "", ""⟩ : VideoCand)] ≠ [] ∧
    watchableYT ⟨"Trailer", "Vimeo", "Official Trailer", 1080, true, "en", "US",
        "2020-01-01T00:00:00Z", "", ""⟩ = false ∧
    pick_best_trailer (fun _ => 0)
      [⟨"Trailer", "Vimeo", "Official Trailer", 1080, true, "en", "US",
        "2020-01-01T00:00:00Z", "", ""⟩] ["en-US"] = none ∧
    best_trailer_url
      [⟨"Trailer", "Vimeo", "Official Trailer", 1080, true, "en", "US",
        "2020-01-01T00:00:00Z", "", ""⟩] = none := by
  refine ⟨by simp, by decide, ?_, ?_⟩
  · simp [pick_best_trailer, watchableYT, argmaxFirst]
  · simp [best_trailer_url, watchableYT, argmaxFirst]

/-- C7 amended: when no entry of the candidate list is a YouTube entry with a
playable key, the unfiltered list is scored, but `pick_best_trailer` then
always returns `none` (the chosen entry cannot be rendered as a YouTube URL),
and `best_trailer_url` returns `none` unless the winning entry carries an
explicit `url` value (here: whenever no entry has one). -/
theorem trailer_no_watchable_amended :
    (∀ (h : String → ℤ) (videos : List VideoCand) (langs : List String),
      (∀ v ∈ videos, watchableYT v = false) →
        pick_best_trailer h videos langs = none) ∧
    (∀ videos : List VideoCand,
      (∀ v ∈ videos, watchableYT v = false ∧ v.url = "") →
        best_trailer_url videos = none) := by
  constructor
  · intro h videos langs hnone
    match videos with
    | [] => rfl
    | v0 :: rest =>
      simp only [pick_best_trailer]
      have hfilter : (v0 :: rest).filter watchableYT = [] := by
        rw [List.filter_eq_nil_iff]
        intro v hv
        simp [hnone v hv]
      rw [hfilter]
      simp only [List.isEmpty_nil, if_pos]
      have hmem := argmaxFirst_mem
        (scoreTrailer h (preferNorm langs)) v0 rest
      have hbest : watchableYT
          (argmaxFirst (scoreTrailer h (preferNorm langs)) v0 rest) = false := by
        rcases hmem with hm | hm
        · rw [hm]; exact hnone v0 (List.mem_cons_self _ _)
        · exact hnone _ (List.mem_cons_of_mem _ hm)
      simp [hbest]
  · intro videos hnone
    match videos with
    | [] => rfl
    | v0 :: rest =>
      simp only [best_trailer_url]
      have hmem := argmaxFirst_mem scoreTrailerSimple v0 rest
      have hbest : watchableYT (argmaxFirst scoreTrailerSimple v0 rest) = false ∧
          (argmaxFirst scoreTrailerSimple v0 rest).url = "" := by
        rcases hmem with hm | hm
        · rw [hm]; exact hnone v0 (List.mem_cons_self _ _)
        · exact hnone _ (List.mem_cons_of_mem _ hm)
      simp [hbest.1, hbest.2]

/-- Score of a minimal YouTube entry: every boolean bonus is off except the
platform bonus and the missing-language flat bonus, leaving the hash
tie-break term visible. -/
theorem scoreTrailer_eval_plain (h : String → ℤ) (pn : List String) (pub key : String) :
    scoreTrailer h pn ⟨"", "youtube", "", 0, false, "", "", pub, key, ""⟩ =
      2 + 0.2 + ((h pub % 1000 : ℤ) : ℚ) / 1000 * 1.5 := by
  simp only [scoreTrailer]
  norm_num [show pyLowerStr "" = "" from by decide,
    show pyLowerStr "youtube" = "youtube" from by decide,
    show pyInStr "official trailer" "" = false from by decide,
    show pyInStr "trailer" "" = false from by decide]
  rw [if_neg (by decide), if_neg (by decide)]
  norm_num

/-- C8 counterexample: two per-process string-hash functions (Python's `hash`
on `str` is salted per process) under which `pick_best_trailer`, on the same
candidate list and the same preference list, picks different URLs — refuting
reproducibility across processes. -/
theorem trailer_hash_counterexample :
    pick_best_trailer (fun s => if s = "a" then (0:ℤ) else 500)
      [⟨"", "youtube", "", 0, false, "", "", "a", "k1", ""⟩,
       ⟨"", "youtube", "", 0, false, "", "", "b", "k2", ""⟩] [] =
      some (YOUTUBE_WATCH ++ "k2") ∧
    pick_best_trailer (fun s => if s = "a" then (500:ℤ) else 0)
      [⟨"", "youtube", "", 0, false, "", "", "a", "k1", ""⟩,
       ⟨"", "youtube", "", 0, false, "", "", "b", "k2", ""⟩] [] =
      some (YOUTUBE_WATCH ++ "k1") ∧
    (some (YOUTUBE_WATCH ++ "k2") : Option String) ≠ some (YOUTUBE_WATCH ++ "k1") := by
  have hw1 : watchableYT ⟨"", "youtube", "", 0, false, "", "", "a", "k1", ""⟩ = true := by
    decide
  have hw2 : watchableYT ⟨"", "youtube", "", 0, false, "", "", "b", "k2", ""⟩ = true := by
    decide
  refine ⟨?_, ?_, by decide⟩
  · have hcmp : scoreTrailer (fun s => if s = "a" then (0:ℤ) else 500) (preferNorm [])
        ⟨"", "youtube", "", 0, false, "", "", "a", "k1", ""⟩ <
        scoreTrailer (fun s => if s = "a" then (0:ℤ) else 500) (preferNorm [])
        ⟨"", "youtube", "", 0, false, "", "", "b", "k2", ""⟩ := by
      rw [scoreTrailer_eval_plain, scoreTrailer_eval_plain]
      norm_num
      decide
    simp [pick_best_trailer, List.filter_cons, hw1, hw2, argmaxFirst, hcmp]
  · have hcmp : ¬ (scoreTrailer (fun s => if s = "a" then (500:ℤ) else 0) (preferNorm [])
        ⟨"", "youtube", "", 0, false, "", "", "a", "k1", ""⟩ <
        scoreTrailer (fun s => if s = "a" then (500:ℤ) else 0) (preferNorm [])
        ⟨"", "youtube", "", 0, false, "", "", "b", "k2", ""⟩) := by
      rw [scoreTrailer_eval_plain, scoreTrailer_eval_plain]
      norm_num [show (if ("a":String) = "a" then (500:ℤ) else 0) = 500 from by decide,
        show (if ("b":String) = "a" then (500:ℤ) else 0) = 0 from by decide,
        show ((500:ℤ) % 1000) = 500 from by decide,
        show ((0:ℤ) % 1000) = 0 from by decide]
    simp [pick_best_trailer, List.filter_cons, hw1, hw2, argmaxFirst, hcmp]

theorem scoreTrailer_hash_congr (h1 h2 : String → ℤ) (pn : List String) (v : VideoCand)
    (h : h1 v.published_at % 1000 = h2 v.published_at % 1000) :
    scoreTrailer h1 pn v = scoreTrailer h2 pn v := by
  simp only [scoreTrailer, h]

/-- C8 amended: trailer scoring is deterministic given the process's
string-hash function: the hash enters each entry's score only through
`hash(published_at) mod 1000`, so two executions whose hash functions agree
modulo 1000 on the entries' publish timestamps compute the same score for
every entry and pick the same URL.  (Across processes Python's salted `str`
hash need not agree, and the pick can differ — see the counterexample.) -/
theorem trailer_hash_amended :
    ∀ (h1 h2 : String → ℤ) (videos : List VideoCand) (langs : List String),
      (∀ v ∈ videos, h1 v.published_at % 1000 = h2 v.published_at % 1000) →
      (∀ v ∈ videos, scoreTrailer h1 (preferNorm langs) v =
          scoreTrailer h2 (preferNorm langs) v) ∧
      pick_best_trailer h1 videos langs = pick_best_trailer h2 videos langs := by
  intro h1 h2 videos langs hmod
  have hsc : ∀ v ∈ videos, scoreTrailer h1 (preferNorm langs) v =
      scoreTrailer h2 (preferNorm langs) v :=
    fun v hv => scoreTrailer_hash_congr h1 h2 _ v (hmod v hv)
  refine ⟨hsc, ?_⟩
  match videos with
  | [] => rfl
  | v0 :: rest =>
    simp only [pick_best_trailer]
    generalize hp : (if ((v0 :: rest).filter watchableYT).isEmpty then v0 :: rest
      else (v0 :: rest).filter watchableYT) = pool
    have hsub : ∀ x ∈ pool, x ∈ v0 :: rest := by
      intro x hx
      rw [← hp] at hx
      by_cases hempty : ((v0 :: rest).filter watchableYT).isEmpty
      · rwa [if_pos hempty] at hx
      · rw [if_neg hempty] at hx
        exact (List.mem_filter.mp hx).1
    match pool with
    | [] => rfl
    | p :: ps =>
      dsimp only
      rw [argmaxFirst_congr _ (scoreTrailer h2 (preferNorm langs)) p ps
        (fun x hx => hsc x (hsub x hx))]

theorem trailer_hash_amended_witness :
    (∀ v ∈ [(⟨"", "youtube", "", 0, false, "", "", "a", "k1", ""⟩ : VideoCand)],
      (fun _ : String => (0:ℤ)) v.published_at % 1000 =
        (fun _ : String => (1000:ℤ)) v.published_at % 1000) ∧
    pick_best_trailer (fun _ => 0)
        [⟨"", "youtube", "", 0, false, "", "", "a", "k1", ""⟩] [] =
      pick_best_trailer (fun _ => 1000)
        [⟨"", "youtube", "", 0, false, "", "", "a", "k1", ""⟩] [] := by
  refine ⟨by decide, ?_⟩
  exact (trailer_hash_amended (fun _ => 0) (fun _ => 1000) _ [] (by decide)).2

theorem trailer_no_watchable_amended_witness :
    pick_best_trailer (fun _ => 0)
      [⟨"Trailer", "Vimeo", "x", 0, false, "", "", "", "", ""⟩] [] = none ∧
    best_trailer_url [⟨"Trailer", "Vimeo", "x", 0, false, "", "", "", "", ""⟩] = none := by
  constructor
  · exact trailer_no_watchable_amended.1 _ _ _ (by decide)
  · exact trailer_no_watchable_amended.2 _ (by decide)

end MovieSpec

namespace MovieSpec


theorem digitsToNat_single (c : Char) : digitsToNat [c] = c.toNat - 48 := by
  simp [digitsToNat]

theorem digitsToNat_append_last (a : List Char) (c : Char) :
    digitsToNat (a ++ [c]) = digitsToNat a * 10 + (c.toNat - 48) := by
  simp [digitsToNat, List.foldl_append]

theorem digitsToNat_natDigitsGo : ∀ fuel n, n < fuel →
    digitsToNat (natDigitsGo fuel n) = n := by
  intro fuel
  induction fuel with
  | zero => intro n h; omega
  | succ fuel ih =>
    intro n h
    rw [natDigitsGo]
    by_cases h10 : n < 10
    · rw [if_pos h10, digitsToNat_single]
      have : (Char.ofNat (48 + n)).toNat = 48 + n := by interval_cases n <;> decide
      omega
    · rw [if_neg h10, digitsToNat_append_last]
      have hdiv : n / 10 < fuel := by
        have : n / 10 < n := Nat.div_lt_self (by omega) (by omega)
        omega
      rw [ih _ hdiv]
      have hm : n % 10 < 10 := Nat.mod_lt _ (by omega)
      have : (Char.ofNat (48 + n % 10)).toNat = 48 + n % 10 := by
        interval_cases hmod : (n % 10) <;> decide
      rw [this]
      omega

theorem natDigits_injective {n m : Nat} (h : natDigits n = natDigits m) : n = m := by
  have hn := digitsToNat_natDigitsGo (n + 1) n (Nat.lt_succ_self n)
  have hm := digitsToNat_natDigitsGo (m + 1) m (Nat.lt_succ_self m)
  unfold natDigits at h
  rw [h, hm] at hn
  exact hn.symm



theorem append_middle_inj {pre suf a b : List Char}
    (h : pre ++ a ++ suf = pre ++ b ++ suf) : a = b := by
  rw [List.append_assoc, List.append_assoc] at h
  exact List.append_cancel_right (List.append_cancel_left h)

theorem candAt_render_data (dst : PyPath) (n : Nat) :
    ((candAt dst n).render).data =
      (dst.parent.data ++ '/' :: dst.stem.data ++ [' ', '(']) ++
        natDigits n ++ (')' :: dst.ext.data) := by
  simp [candAt, PyPath.render, String.data_append, List.asString]

theorem candAt_render_inj (dst : PyPath) {n m : Nat}
    (h : (candAt dst n).render = (candAt dst m).render) : n = m := by
  have hd := congrArg String.data h
  rw [candAt_render_data, candAt_render_data] at hd
  exact natDigits_injective (append_middle_inj hd)



theorem ensure_unique_loop_spec (fs : List String) (dst : PyPath) :
    ∀ fuel n, (∃ k, k < fuel ∧ pathExists fs (candAt dst (n + k)) = false) →
    ∃ k, k < fuel ∧ ensure_unique_loop fs dst fuel n = some (candAt dst (n + k)) ∧
      pathExists fs (candAt dst (n + k)) = false ∧
      ∀ j, j < k → pathExists fs (candAt dst (n + j)) = true := by
  intro fuel
  induction fuel with
  | zero =>
    rintro n ⟨k, hk, -⟩
    omega
  | succ fuel ih =>
    rintro n ⟨k, hk, hfree⟩
    rw [ensure_unique_loop]
    cases hex : pathExists fs (candAt dst n) with
    | false =>
      rw [if_neg (by simp [hex])]
      exact ⟨0, Nat.succ_pos _, by rw [Nat.add_zero], by rwa [Nat.add_zero],
        fun j hj => absurd hj (Nat.not_lt_zero j)⟩
    | true =>
      rw [if_pos (by simp [hex])]
      have hk0 : k ≠ 0 := by
        rintro rfl
        rw [Nat.add_zero] at hfree
        rw [hfree] at hex
        exact Bool.noConfusion hex
      obtain ⟨k', rfl⟩ : ∃ k', k = k' + 1 := ⟨k - 1, by omega⟩
      obtain ⟨k'', hlt, heq, hfree', hall⟩ := ih (n + 1)
        ⟨k', by omega, by rw [show n + 1 + k' = n + (k' + 1) by omega]; exact hfree⟩
      refine ⟨k'' + 1, by omega, ?_, ?_, ?_⟩
      · rw [show n + (k'' + 1) = n + 1 + k'' by omega]; exact heq
      · rw [show n + (k'' + 1) = n + 1 + k'' by omega]; exact hfree'
      · intro j hj
        match j with
        | 0 => rw [Nat.add_zero]; exact hex
        | j + 1 =>
          rw [show n + (j + 1) = n + 1 + j by omega]
          exact hall j (by omega)

theorem exists_free_cand (fs : List String) (dst : PyPath) :
    ∃ k, k < fs.length + 1 ∧ pathExists fs (candAt dst (2 + k)) = false := by
  by_contra hcon
  push_neg at hcon
  have hall : ∀ k < fs.length + 1, (candAt dst (2 + k)).render ∈ fs := by
    intro k hk
    have hne := hcon k hk
    have hb : pathExists fs (candAt dst (2 + k)) = true := by
      cases h : pathExists fs (candAt dst (2 + k))
      · exact absurd h hne
      · rfl
    rw [pathExists] at hb
    simpa using hb
  have hinj : Function.Injective (fun k : Nat => (candAt dst (2 + k)).render) := by
    intro a b hab
    have := candAt_render_inj dst hab
    omega
  have hnodup : ((List.range (fs.length + 1)).map
      (fun k => (candAt dst (2 + k)).render)).Nodup :=
    (List.nodup_range _).map hinj
  have hsub : ∀ x ∈ (List.range (fs.length + 1)).map
      (fun k => (candAt dst (2 + k)).render), x ∈ fs := by
    intro x hx
    obtain ⟨k, hk, rfl⟩ := List.mem_map.mp hx
    exact hall k (List.mem_range.mp hk)
  have hcard : ((List.range (fs.length + 1)).map
      (fun k => (candAt dst (2 + k)).render)).length ≤ fs.length := by
    calc ((List.range (fs.length + 1)).map
        (fun k => (candAt dst (2 + k)).render)).length
        = ((List.range (fs.length + 1)).map
          (fun k => (candAt dst (2 + k)).render)).toFinset.card :=
          (List.toFinset_card_of_nodup hnodup).symm
      _ ≤ fs.toFinset.card := Finset.card_le_card (fun x hx =>
          List.mem_toFinset.mpr (hsub x (List.mem_toFinset.mp hx)))
      _ ≤ fs.length := fs.toFinset_card_le
  simp at hcard



theorem ensure_unique_path_spec :
    ∀ (fs : List String) (dst : PyPath),
      pathExists fs (ensure_unique_path fs dst) = false ∧
      (pathExists fs dst = false → ensure_unique_path fs dst = dst) ∧
      (pathExists fs dst = true →
        ∃ n, 2 ≤ n ∧ ensure_unique_path fs dst = candAt dst n ∧
          (∀ m, 2 ≤ m → m < n → pathExists fs (candAt dst m) = true) ∧
          (ensure_unique_path fs dst).parent = dst.parent ∧
          (ensure_unique_path fs dst).ext = dst.ext) := by
  intro fs dst
  cases hex : pathExists fs dst with
  | false =>
    have hres : ensure_unique_path fs dst = dst := by
      rw [ensure_unique_path, if_neg (by simp [hex])]
    refine ⟨by rw [hres]; exact hex, fun _ => hres, fun h => absurd h (by simp [hex])⟩
  | true =>
    obtain ⟨k, hk, hfree⟩ := exists_free_cand fs dst
    obtain ⟨k', hk', heq, hfree', hall⟩ :=
      ensure_unique_loop_spec fs dst (fs.length + 1) 2 ⟨k, hk, hfree⟩
    have hres : ensure_unique_path fs dst = candAt dst (2 + k') := by
      rw [ensure_unique_path, if_pos (by simp [hex]), heq]
      rfl
    refine ⟨by rw [hres]; exact hfree', fun h => absurd h (by simp [hex]), fun _ => ?_⟩
    refine ⟨2 + k', by omega, hres, ?_, by rw [hres]; rfl, by rw [hres]; rfl⟩
    intro m hm2 hmn
    have := hall (m - 2) (by omega)
    rwa [show 2 + (m - 2) = m by omega] at this

theorem ensure_unique_path_spec_witness :
    pathExists ["d/a.mkv", "d/a (2).mkv"] (ensure_unique_path ["d/a.mkv", "d/a (2).mkv"] ⟨"d", "a", ".mkv"⟩) = false ∧
    pathExists ["d/a.mkv", "d/a (2).mkv"] (⟨"d", "a", ".mkv"⟩ : PyPath) = true ∧
    ensure_unique_path ["d/a.mkv", "d/a (2).mkv"] ⟨"d", "a", ".mkv"⟩ = ⟨"d", "a (3)", ".mkv"⟩ := by
  have h3 := (ensure_unique_path_spec ["d/a.mkv", "d/a (2).mkv"] ⟨"d", "a", ".mkv"⟩).1
  refine ⟨h3, by decide, ?_⟩
  simp [ensure_unique_path, ensure_unique_loop, candAt, pathExists, PyPath.render,
    natDigits, natDigitsGo]
  decide


end MovieSpec

namespace MovieSpec


/-- Adjacent characters are never both whitespace. -/
def NoAdjWS (l : List Char) : Prop :=
  List.Chain' (fun a b => ¬(isPySpace a = true ∧ isPySpace b = true)) l

theorem collapseWSGo_space_eq (b : Bool) (l : List Char) :
    ∀ c ∈ collapseWSGo b l, isPySpace c = true → c = ' ' := by
  induction l generalizing b with
  | nil => intro c hc; simp [collapseWSGo] at hc
  | cons d rest ih =>
    intro c hc hsp
    rw [collapseWSGo] at hc
    by_cases hd : isPySpace d = true
    · rw [if_pos hd] at hc
      cases b with
      | true => exact ih true c hc hsp
      | false =>
        rcases List.mem_cons.mp hc with h | h
        · exact h
        · exact ih true c h hsp
    · rw [if_neg hd] at hc
      rcases List.mem_cons.mp hc with h | h
      · subst h; exact absurd hsp hd
      · exact ih false c h hsp

theorem collapseWSGo_subset (b : Bool) (l : List Char) :
    ∀ c ∈ collapseWSGo b l, c = ' ' ∨ c ∈ l := by
  induction l generalizing b with
  | nil => intro c hc; simp [collapseWSGo] at hc
  | cons d rest ih =>
    intro c hc
    rw [collapseWSGo] at hc
    by_cases hd : isPySpace d = true
    · rw [if_pos hd] at hc
      cases b with
      | true =>
        rcases ih true c hc with h | h
        · exact Or.inl h
        · exact Or.inr (List.mem_cons_of_mem _ h)
      | false =>
        rcases List.mem_cons.mp hc with h | h
        · exact Or.inl h
        · rcases ih true c h with h2 | h2
          · exact Or.inl h2
          · exact Or.inr (List.mem_cons_of_mem _ h2)
    · rw [if_neg hd] at hc
      rcases List.mem_cons.mp hc with h | h
      · exact Or.inr (h ▸ List.mem_cons_self _ _)
      · rcases ih false c h with h2 | h2
        · exact Or.inl h2
        · exact Or.inr (List.mem_cons_of_mem _ h2)

theorem collapseWSGo_true_head (l : List Char) :
    ∀ c cs, collapseWSGo true l = c :: cs → isPySpace c = false := by
  induction l with
  | nil => intro c cs h; simp [collapseWSGo] at h
  | cons d rest ih =>
    intro c cs h
    rw [collapseWSGo] at h
    by_cases hd : isPySpace d = true
    · rw [if_pos hd] at h
      exact ih c cs h
    · rw [if_neg hd] at h
      cases h
      exact Bool.eq_false_iff.mpr hd

theorem collapseWSGo_chain (l : List Char) : ∀ b, NoAdjWS (collapseWSGo b l) := by
  induction l with
  | nil => intro b; simp [collapseWSGo, NoAdjWS]
  | cons d rest ih =>
    intro b
    rw [collapseWSGo]
    by_cases hd : isPySpace d = true
    · rw [if_pos hd]
      cases b with
      | true => exact ih true
      | false =>
        simp only [Bool.false_eq_true, if_false]
        rw [NoAdjWS, List.chain'_cons']
        refine ⟨?_, ih true⟩
        intro e he
        cases hrest : collapseWSGo true rest with
        | nil => rw [hrest] at he; simp at he
        | cons f fs =>
          rw [hrest] at he
          simp at he
          subst he
          have := collapseWSGo_true_head rest f fs hrest
          intro hand
          rw [this] at hand
          exact Bool.noConfusion hand.2
    · rw [if_neg hd]
      rw [NoAdjWS, List.chain'_cons']
      refine ⟨?_, ih false⟩
      intro e he hand
      rw [Bool.eq_false_iff.mpr hd] at hand
      exact Bool.noConfusion hand.1



theorem collapseWSGo_fix (l : List Char)
    (hsp : ∀ c ∈ l, isPySpace c = true → c = ' ') (hch : NoAdjWS l) :
    collapseWSGo false l = l ∧
      (∀ c cs, l = c :: cs → isPySpace c = false → collapseWSGo true l = l) := by
  induction l with
  | nil => exact ⟨rfl, fun c cs h => by simp at h⟩
  | cons d rest ih =>
    have hsp' : ∀ c ∈ rest, isPySpace c = true → c = ' ' :=
      fun c hc => hsp c (List.mem_cons_of_mem _ hc)
    have hch' : NoAdjWS rest := hch.tail
    obtain ⟨ihf, iht⟩ := ih hsp' hch'
    by_cases hd : isPySpace d = true
    · have hd' : d = ' ' := hsp d (List.mem_cons_self _ _) hd
      constructor
      · rw [collapseWSGo, if_pos hd]
        simp only [Bool.false_eq_true, if_false]
        cases rest with
        | nil => rw [hd']; rfl
        | cons e rest' =>
          have hrel := List.chain'_cons'.mp (by rw [← NoAdjWS]; exact hch)
          have he : isPySpace e = false := by
            have := hrel.1 e rfl
            by_cases hee : isPySpace e = true
            · exact absurd ⟨hd, hee⟩ this
            · exact Bool.eq_false_iff.mpr hee
          rw [iht e rest' rfl he, hd']
      · intro c cs hcons hcf
        cases hcons
        rw [hcf] at hd
        exact Bool.noConfusion hd
    · have hdf : isPySpace d = false := Bool.eq_false_iff.mpr hd
      constructor
      · rw [collapseWSGo, if_neg hd, ihf]
      · intro c cs hcons _
        cases hcons
        rw [collapseWSGo, if_neg hd, ihf]

theorem subIllegal_fix (l : List Char) (h : ∀ c ∈ l, isIllegalWin c = false) :
    subIllegal l = l := by
  rw [subIllegal]
  induction l with
  | nil => rfl
  | cons d rest ih =>
    rw [List.map_cons]
    rw [if_neg (by rw [h d (List.mem_cons_self _ _)]; exact Bool.noConfusion)]
    rw [ih (fun c hc => h c (List.mem_cons_of_mem _ hc))]




/-- Invariants of a sanitised component (modulo a possibly-trailing space). -/
structure GoodComp (l : List Char) : Prop where
  noIllegal : ∀ c ∈ l, isIllegalWin c = false
  spaceEq : ∀ c ∈ l, isPySpace c = true → c = ' '
  noAdj : NoAdjWS l
  headNoWS : ∀ c cs, l = c :: cs → isPySpace c = false
  lastNoDot : ∀ c, l.getLast? = some c → c ≠ '.'

theorem rstripWS_eq_rdropWhile (l : List Char) :
    rstripWS l = l.rdropWhile isPySpace := rfl

theorem rstripDot_eq_rdropWhile (l : List Char) :
    rstripDot l = l.rdropWhile (fun c => c = '.') := rfl

theorem sanitizeBase_fix (l : List Char) (hg : GoodComp l)
    (hlast : ∀ c, l.getLast? = some c → isPySpace c = false) :
    sanitizeBase l.asString = l := by
  rw [sanitizeBase]
  have hdata : (l.asString).data = l := rfl
  rw [hdata]
  rw [subIllegal_fix l hg.noIllegal]
  rw [collapseWS, (collapseWSGo_fix l hg.spaceEq hg.noAdj).1]
  have hstrip : stripWS l = l := by
    rw [stripWS, lstripWS]
    rw [List.dropWhile_eq_self_iff.mpr ?hhead]
    case hhead =>
      intro hl
      cases l with
      | nil => simp at hl
      | cons c cs =>
        have := hg.headNoWS c cs rfl
        simp only [List.get]
        rw [this]
        exact Bool.noConfusion
    rw [rstripWS_eq_rdropWhile]
    rw [List.rdropWhile_eq_self_iff.mpr ?hlast1]
    case hlast1 =>
      intro hl
      rw [hlast (l.getLast hl) (List.getLast?_eq_getLast l hl)]
      exact Bool.noConfusion
  rw [hstrip]
  rw [rstripDot_eq_rdropWhile]
  rw [List.rdropWhile_eq_self_iff.mpr ?hlast2]
  case hlast2 =>
    intro hl
    have := hg.lastNoDot (l.getLast hl) (List.getLast?_eq_getLast l hl)
    simp [this]

theorem subIllegal_noIllegal (l : List Char) :
    ∀ c ∈ subIllegal l, isIllegalWin c = false := by
  intro c hc
  obtain ⟨a, -, rfl⟩ := List.mem_map.mp hc
  by_cases ha : isIllegalWin a = true
  · rw [if_pos ha]; decide
  · rw [if_neg ha]; exact Bool.eq_false_iff.mpr ha

theorem sanitizeBase_sublist_collapse (x : String) :
    List.Sublist (sanitizeBase x) (collapseWS (subIllegal x.data)) := by
  rw [sanitizeBase]
  have h1 : List.Sublist (rstripDot (stripWS (collapseWS (subIllegal x.data))))
      (stripWS (collapseWS (subIllegal x.data))) := by
    rw [rstripDot_eq_rdropWhile]
    exact (List.rdropWhile_prefix _ _).sublist
  have h2 : List.Sublist (stripWS (collapseWS (subIllegal x.data)))
      (lstripWS (collapseWS (subIllegal x.data))) := by
    rw [stripWS, rstripWS_eq_rdropWhile]
    exact (List.rdropWhile_prefix _ _).sublist
  have h3 : List.Sublist (lstripWS (collapseWS (subIllegal x.data)))
      (collapseWS (subIllegal x.data)) := by
    rw [lstripWS]
    exact (List.dropWhile_suffix _).sublist
  exact h1.trans (h2.trans h3)

theorem sanitizeBase_good (x : String) : GoodComp (sanitizeBase x) := by
  have hsub := sanitizeBase_sublist_collapse x
  constructor
  · intro c hc
    rcases collapseWSGo_subset false (subIllegal x.data) c (hsub.subset hc) with h | h
    · rw [h]; decide
    · exact subIllegal_noIllegal _ c h
  · intro c hc
    exact collapseWSGo_space_eq false (subIllegal x.data) c (hsub.subset hc)
  · have hch : NoAdjWS (collapseWS (subIllegal x.data)) :=
      collapseWSGo_chain (subIllegal x.data) false
    rw [NoAdjWS] at hch ⊢
    rw [sanitizeBase, rstripDot_eq_rdropWhile]
    refine List.Chain'.prefix ?_ (List.rdropWhile_prefix _ _)
    rw [stripWS, rstripWS_eq_rdropWhile]
    refine List.Chain'.prefix ?_ (List.rdropWhile_prefix _ _)
    rw [lstripWS]
    exact List.Chain'.suffix hch (List.dropWhile_suffix _)
  · intro c cs hz
    have hpre : List.IsPrefix (sanitizeBase x)
        (List.dropWhile isPySpace (collapseWS (subIllegal x.data))) := by
      rw [sanitizeBase, rstripDot_eq_rdropWhile, stripWS, rstripWS_eq_rdropWhile, lstripWS]
      exact (List.rdropWhile_prefix _ _).trans (List.rdropWhile_prefix _ _)
    obtain ⟨t, ht⟩ := hpre
    rw [hz] at ht
    have hne : List.dropWhile isPySpace (collapseWS (subIllegal x.data)) ≠ [] := by
      rw [← ht]; simp
    have hq : (List.dropWhile isPySpace (collapseWS (subIllegal x.data))).head? = some c := by
      rw [← ht]; rfl
    have hhead := List.head_dropWhile_not isPySpace (collapseWS (subIllegal x.data)) hne
    rw [List.head?_eq_head hne] at hq
    rw [Option.some_inj.mp hq] at hhead
    exact hhead
  · intro c hc
    rw [sanitizeBase, rstripDot_eq_rdropWhile] at hc
    have hne : (stripWS (collapseWS (subIllegal x.data))).rdropWhile (fun c => c = '.') ≠ [] := by
      intro h
      rw [h] at hc
      exact Option.noConfusion hc
    have := List.rdropWhile_last_not (fun c => c = '.')
      (stripWS (collapseWS (subIllegal x.data))) hne
    rw [List.getLast?_eq_getLast _ hne] at hc
    rw [Option.some_inj.mp hc] at this
    simpa using this



theorem strExt {s t : String} (h : s.data = t.data) : s = t := by
  cases s; cases t; simp_all

theorem asString_append (a b : List Char) :
    (a ++ b).asString = a.asString ++ b.asString := by
  apply strExt
  rw [String.data_append]
  rfl

theorem pyLowerStr_asString (l : List Char) :
    pyLowerStr l.asString = (l.map pyLower).asString := rfl

theorem pyLowerStr_append_underscore (z : List Char) :
    pyLowerStr ((z ++ ['_']).asString) = pyLowerStr z.asString ++ "_" := by
  rw [pyLowerStr_asString, pyLowerStr_asString, List.map_append]
  rw [show (['_'].map pyLower) = ['_'] from by decide]
  rw [asString_append]
  rfl

theorem reserved_append_underscore (s : String)
    (h : RESERVED_WIN_NAMES.contains s = true) :
    RESERVED_WIN_NAMES.contains (s ++ "_") = false := by
  have hm : s ∈ RESERVED_WIN_NAMES := by simpa using h
  fin_cases hm <;> decide

theorem goodComp_append_underscore (z : List Char) (hg : GoodComp z) (hz : z ≠ []) :
    GoodComp (z ++ ['_']) := by
  constructor
  · intro c hc
    rcases List.mem_append.mp hc with h | h
    · exact hg.noIllegal c h
    · rw [List.mem_singleton.mp h]; decide
  · intro c hc hsp
    rcases List.mem_append.mp hc with h | h
    · exact hg.spaceEq c h hsp
    · rw [List.mem_singleton.mp h] at hsp; exact absurd hsp (by decide)
  · refine List.Chain'.append hg.noAdj (List.chain'_singleton _) ?_
    intro a ha b hb
    rw [List.head?_cons, Option.mem_some_iff] at hb
    subst hb
    intro hand
    exact absurd hand.2 (by decide)
  · intro c cs hcons
    cases z with
    | nil => exact absurd rfl hz
    | cons d ds =>
      rw [List.cons_append] at hcons
      injection hcons with h1 h2
      rw [← h1]
      exact hg.headNoWS d ds rfl
  · intro c hc
    rw [List.getLast?_concat] at hc
    rw [Option.some_inj.mp hc.symm]
    decide

/-- One pass of either sanitizer is the identity on a string whose char list is
a good component not ending in whitespace and not lower-casing to a reserved
device name. -/
theorem sanitize_pass_id (l : List Char) (hg : GoodComp l)
    (hlast : ∀ c, l.getLast? = some c → isPySpace c = false) (hne : l ≠ [])
    (hres : RESERVED_WIN_NAMES.contains (pyLowerStr l.asString) = false) :
    MT.sanitize_component l.asString = l.asString ∧
      MTool.sanitize_component l.asString = l.asString := by
  have hbase : sanitizeBase l.asString = l := sanitizeBase_fix l hg hlast
  constructor
  · rw [MT.sanitize_component]
    simp only [hbase]
    rw [if_neg hne, if_neg (by rw [hres]; decide)]
  · rw [MTool.sanitize_component]
    simp only [hbase]
    rw [if_neg (by rw [hres]; decide)]



theorem sanitize_idempotent_amended :
    ∀ x : String,
      (∀ c, (sanitizeBase x).getLast? = some c → c ≠ ' ') →
      MT.sanitize_component (MT.sanitize_component x) = MT.sanitize_component x ∧
      MTool.sanitize_component (MTool.sanitize_component x) = MTool.sanitize_component x := by
  intro x hx
  have hg := sanitizeBase_good x
  by_cases hz : sanitizeBase x = []
  · have hMT : MT.sanitize_component x = "_" := by
      simp only [MT.sanitize_component, hz]
      decide
    have hMTool : MTool.sanitize_component x = "" := by
      simp only [MTool.sanitize_component, hz]
      decide
    rw [hMT, hMTool]
    exact ⟨by decide, by decide⟩
  · have hlast : ∀ c, (sanitizeBase x).getLast? = some c → isPySpace c = false := by
      intro c hc
      have hmem : c ∈ sanitizeBase x := List.mem_of_mem_getLast? (by rw [hc]; rfl)
      by_cases hsp : isPySpace c = true
      · exact absurd (hg.spaceEq c hmem hsp) (hx c hc)
      · exact Bool.eq_false_iff.mpr hsp
    by_cases hres : RESERVED_WIN_NAMES.contains (pyLowerStr (sanitizeBase x).asString) = true
    · have hout : MT.sanitize_component x = ((sanitizeBase x) ++ ['_']).asString := by
        simp only [MT.sanitize_component]
        rw [if_neg hz, if_pos hres, asString_append]
        rfl
      have hout2 : MTool.sanitize_component x = ((sanitizeBase x) ++ ['_']).asString := by
        simp only [MTool.sanitize_component]
        rw [if_pos hres, asString_append]
        rfl
      have hg2 := goodComp_append_underscore _ hg hz
      have hlast2 : ∀ c, ((sanitizeBase x) ++ ['_']).getLast? = some c →
          isPySpace c = false := by
        intro c hc
        rw [List.getLast?_concat] at hc
        rw [← Option.some_inj.mp hc]
        decide
      have hne2 : (sanitizeBase x) ++ ['_'] ≠ [] := by simp
      have hres2 : RESERVED_WIN_NAMES.contains
          (pyLowerStr (((sanitizeBase x) ++ ['_']).asString)) = false := by
        rw [pyLowerStr_append_underscore]
        exact reserved_append_underscore _ hres
      obtain ⟨hMT2, hMTool2⟩ := sanitize_pass_id _ hg2 hlast2 hne2 hres2
      exact ⟨by rw [hout, hMT2], by rw [hout2, hMTool2]⟩
    · have hresf : RESERVED_WIN_NAMES.contains
          (pyLowerStr (sanitizeBase x).asString) = false := Bool.eq_false_iff.mpr hres
      have hout : MT.sanitize_component x = (sanitizeBase x).asString := by
        simp only [MT.sanitize_component]
        rw [if_neg hz, if_neg hres]
      have hout2 : MTool.sanitize_component x = (sanitizeBase x).asString := by
        simp only [MTool.sanitize_component]
        rw [if_neg hres]
      obtain ⟨hMT2, hMTool2⟩ := sanitize_pass_id _ hg hlast hz hresf
      exact ⟨by rw [hout, hMT2], by rw [hout2, hMTool2]⟩

theorem sanitize_idempotent_counterexample :
    MT.sanitize_component (MT.sanitize_component "a .") ≠ MT.sanitize_component "a ." ∧
    MTool.sanitize_component (MTool.sanitize_component "a .") ≠ MTool.sanitize_component "a ." :=
  ⟨by decide, by decide⟩

theorem sanitize_idempotent_amended_witness :
    MT.sanitize_component (MT.sanitize_component "b") = MT.sanitize_component "b" ∧
    MTool.sanitize_component (MTool.sanitize_component "b") = MTool.sanitize_component "b" :=
  sanitize_idempotent_amended "b" (by decide)


end MovieSpec

namespace MovieSpec

theorem asString_ne_empty {l : List Char} (h : l ≠ []) : l.asString ≠ "" := by
  intro he
  apply h
  have := congrArg String.data he
  simpa using this

/-- The two sanitizer copies differ exactly in the empty fallback. -/
theorem sanitize_copies_rel (x : String) :
    MT.sanitize_component x =
      (if MTool.sanitize_component x = "" then "_" else MTool.sanitize_component x) := by
  by_cases hz : sanitizeBase x = []
  · have h1 : MTool.sanitize_component x = "" := by
      simp only [MTool.sanitize_component, hz]
      decide
    have h2 : MT.sanitize_component x = "_" := by
      simp only [MT.sanitize_component, hz]
      decide
    rw [h1, h2, if_pos rfl]
  · have hMT : MT.sanitize_component x =
        (if RESERVED_WIN_NAMES.contains (pyLowerStr (sanitizeBase x).asString) = true
          then (sanitizeBase x).asString ++ "_" else (sanitizeBase x).asString) := by
      simp only [MT.sanitize_component]
      rw [if_neg hz]
    have hMTool : MTool.sanitize_component x =
        (if RESERVED_WIN_NAMES.contains (pyLowerStr (sanitizeBase x).asString) = true
          then (sanitizeBase x).asString ++ "_" else (sanitizeBase x).asString) := by
      simp only [MTool.sanitize_component]
    have hnem : MTool.sanitize_component x ≠ "" := by
      rw [hMTool]
      by_cases hres : RESERVED_WIN_NAMES.contains (pyLowerStr (sanitizeBase x).asString) = true
      · rw [if_pos hres]
        intro h
        have := congrArg String.data h
        rw [String.data_append] at this
        simp at this
      · rw [if_neg hres]
        exact asString_ne_empty hz
    rw [if_neg hnem, hMT, hMTool]

/-- C10 counterexample: the two `sanitize_component` copies disagree on `"."`
("" vs "_"), and the two `render_format` copies disagree on the format string
`"abc_"` with an empty context (`["abc"]` vs `["abc_"]`). -/
theorem render_copies_counterexample :
    MTool.sanitize_component "." ≠ MT.sanitize_component "." ∧
    MT.render_format "abc_" ⟨"", none, "", none, none, "", ""⟩ ≠
      MTool.render_format "abc_" ⟨"", none, "", none, none, "", ""⟩ :=
  ⟨by decide, by decide⟩

/-- C10 amended: the movie_tools.py sanitizer equals the movie_tool.py one
except that an empty result becomes `"_"`; and the two renderers agree on
every format/context for which (i) the n/ny/t fields do not sanitize to
empty, (ii) the cleaned substituted string carries no trailing space, dot,
underscore or dash (the extra movie_tools.py strip is then a no-op), and
(iii) no path component sanitizes to empty. -/
theorem render_format_amended :
    (∀ x : String, MT.sanitize_component x =
      (if MTool.sanitize_component x = "" then "_" else MTool.sanitize_component x)) ∧
    (∀ (fmt : String) (ctx : RenderCtx),
      MTool.sanitize_component ctx.n ≠ "" →
      MTool.sanitize_component ctx.ny ≠ "" →
      MTool.sanitize_component ctx.t ≠ "" →
      rstripJunk (renderPost (substAll (safeVals MTool.sanitize_component ctx) fmt)) =
        renderPost (substAll (safeVals MTool.sanitize_component ctx) fmt) →
      (∀ p ∈ ((stripSlashes (stripWS (renderPost
          (substAll (safeVals MTool.sanitize_component ctx) fmt)))).splitOnP
            isSlash).filter (· ≠ []),
        MTool.sanitize_component p.asString ≠ "") →
      MT.render_format fmt ctx = MTool.render_format fmt ctx) := by
  refine ⟨sanitize_copies_rel, ?_⟩
  intro fmt ctx hn hny ht hjunk hparts
  have hsafe : safeVals MT.sanitize_component ctx = safeVals MTool.sanitize_component ctx := by
    simp only [safeVals]
    rw [sanitize_copies_rel ctx.n, if_neg hn, sanitize_copies_rel ctx.ny, if_neg hny,
      sanitize_copies_rel ctx.t, if_neg ht]
  rw [MT.render_format, MTool.render_format, hsafe, hjunk]
  simp only [sanitizePathParts]
  apply List.map_congr_left
  intro p hp
  rw [sanitize_copies_rel, if_neg (hparts p hp)]

theorem render_format_amended_witness :
    (MTool.sanitize_component "a" ≠ "" ∧ MTool.sanitize_component "c" ≠ "" ∧
      MTool.sanitize_component "b" ≠ "") ∧
    MT.render_format "{n}/{t}" ⟨"a", none, "c", none, none, "", "b"⟩ =
      MTool.render_format "{n}/{t}" ⟨"a", none, "c", none, none, "", "b"⟩ := by
  refine ⟨⟨by decide, by decide, by decide⟩, ?_⟩
  exact render_format_amended.2 "{n}/{t}" ⟨"a", none, "c", none, none, "", "b"⟩
    (by decide) (by decide) (by decide) (by decide) (by decide)

end MovieSpec

namespace MovieSpec

theorem takeWhile_append_eq (p : Char → Bool) (a t : List Char)
    (ha : ∀ c ∈ a, p c = true) (ht : ∀ c cs, t = c :: cs → p c = false) :
    (a ++ t).takeWhile p = a := by
  induction a with
  | nil =>
    simp only [List.nil_append]
    cases t with
    | nil => rfl
    | cons c cs =>
      rw [List.takeWhile_cons, ht c cs rfl]
      rfl
  | cons d ds ih =>
    rw [List.cons_append, List.takeWhile_cons, ha d (List.mem_cons_self _ _)]
    simp only [if_true]
    rw [ih (fun c hc => ha c (List.mem_cons_of_mem _ hc))]

theorem matchSEAt_none (c : Char) (l : List Char) (h1 : c ≠ 'S') (h2 : c ≠ 's') :
    matchSEAt (c :: l) = none := by
  rw [matchSEAt]
  rw [if_neg]
  simp [h1, h2]

theorem findSE_append (u tail : List Char) (hu : ∀ c ∈ u, c ≠ 'S' ∧ c ≠ 's') :
    findSE (u ++ tail) = findSE tail := by
  induction u with
  | nil => rfl
  | cons c cs ih =>
    rw [List.cons_append, findSE]
    have hc := hu c (List.mem_cons_self _ _)
    rw [matchSEAt_none c _ hc.1 hc.2]
    exact ih (fun d hd => hu d (List.mem_cons_of_mem _ hd))

theorem seTail_at_E (ed v : List Char) (hed : ed ≠ []) (hlen : ed.length ≤ 3)
    (hdig : ed.all Char.isDigit) (hv : ∀ c cs, v = c :: cs → c.isDigit = false) :
    seTail ('E' :: (ed ++ v)) = some (digitsToNat ed) := by
  rw [seTail]
  have hE : parseEDigits ('E' :: (ed ++ v)) = some (digitsToNat ed) := by
    rw [parseEDigits]
    rw [if_pos (by decide)]
    rw [takeWhile_append_eq _ ed v (fun c hc => by
      have := List.all_eq_true.mp hdig c hc
      exact this) hv]
    rw [if_pos hed, List.take_of_length_le hlen]
  simp only [show ('E' = ' ' || 'E' = '.' || 'E' = '_' || 'E' = '-') = false from by decide]
  simp only [Bool.false_eq_true, if_false, Option.orElse]
  exact hE

theorem matchSEAt_exact (sd ed v : List Char)
    (hsd : sd ≠ []) (hsdlen : sd.length ≤ 2) (hsddig : sd.all Char.isDigit)
    (hed : ed ≠ []) (hedlen : ed.length ≤ 3) (heddig : ed.all Char.isDigit)
    (hv : ∀ c cs, v = c :: cs → c.isDigit = false) :
    matchSEAt ('S' :: (sd ++ 'E' :: (ed ++ v))) =
      some (digitsToNat sd, digitsToNat ed) := by
  rw [matchSEAt]
  rw [if_pos (by decide)]
  have htw : (sd ++ 'E' :: (ed ++ v)).takeWhile Char.isDigit = sd :=
    takeWhile_append_eq _ sd _ (fun c hc => List.all_eq_true.mp hsddig c hc)
      (fun c cs h => by
        injection h with h1 h2
        rw [← h1]
        decide)
  rw [htw]
  have hsd12 : sd.length = 1 ∨ sd.length = 2 := by
    cases sd with
    | nil => exact absurd rfl hsd
    | cons a as =>
      cases as with
      | nil => left; rfl
      | cons b bs =>
        right
        simp only [List.length_cons] at hsdlen ⊢
        omega
  rcases hsd12 with h1 | h2
  · rw [if_neg (by omega), if_pos h1]
    have hdrop : (sd ++ 'E' :: (ed ++ v)).drop 1 = 'E' :: (ed ++ v) := by
      rw [← h1, List.drop_left]
    rw [hdrop, seTail_at_E ed v hed hedlen heddig hv]
  · rw [if_pos (by omega)]
    have hdrop : (sd ++ 'E' :: (ed ++ v)).drop 2 = 'E' :: (ed ++ v) := by
      rw [← h2, List.drop_left]
    rw [hdrop, seTail_at_E ed v hed hedlen heddig hv]
    rw [List.take_of_length_le hsdlen]

end MovieSpec

namespace MovieSpec

theorem parse_episode_tag_counterexample :
    (stemOfBase (pyBasename ("Show.1920x1080.3x05.mkv" : String).data)).asString =
      "Show.1920x1080." ++ "3x05" ∧
    (parse_filename_basic "Show.1920x1080.3x05.mkv").2.2 = (some 20, some 10) ∧
    ((some 20, some 10) : Option Nat × Option Nat) ≠ (some 3, some 5) :=
  ⟨by decide, by decide, by decide⟩

theorem parse_episode_tag_amended :
    ∀ (u sd ed v : List Char) (path : String),
      (∀ c ∈ u, c ≠ 'S' ∧ c ≠ 's') →
      sd ≠ [] → sd.length ≤ 2 → sd.all Char.isDigit →
      ed ≠ [] → ed.length ≤ 3 → ed.all Char.isDigit →
      (∀ c cs, v = c :: cs → c.isDigit = false) →
      stemOfBase (pyBasename path.data) = u ++ 'S' :: (sd ++ 'E' :: (ed ++ v)) →
      (parse_filename_basic path).2.2 =
        (some (digitsToNat sd), some (digitsToNat ed)) := by
  intro u sd ed v path hu hsd hsdlen hsddig hed hedlen heddig hv hstem
  have hfind : findSE (stemOfBase (pyBasename path.data)) =
      some (digitsToNat sd, digitsToNat ed) := by
    rw [hstem, findSE_append u _ hu, findSE]
    rw [matchSEAt_exact sd ed v hsd hsdlen hsddig hed hedlen heddig hv]
  simp only [parse_filename_basic, hfind]
  rfl

theorem parse_episode_tag_amended_witness :
    (∀ c ∈ ("x." : String).data, c ≠ 'S' ∧ c ≠ 's') ∧
    stemOfBase (pyBasename ("dir/x.S01E02.rest.mkv" : String).data) =
      ("x." : String).data ++ 'S' :: (['0','1'] ++ 'E' :: (['0','2'] ++ (".rest" : String).data)) ∧
    (parse_filename_basic "dir/x.S01E02.rest.mkv").2.2 = (some 1, some 2) := by
  refine ⟨by decide, by decide, ?_⟩
  exact parse_episode_tag_amended ("x." : String).data ['0','1'] ['0','2']
    (".rest" : String).data "dir/x.S01E02.rest.mkv" (by decide) (by decide) (by decide)
    (by decide) (by decide) (by decide) (by decide)
    (by intro c cs h; injection h with h1 h2; rw [← h1]; decide) (by decide)

end MovieSpec

namespace MovieSpec


theorem jaccard_season02 : jaccard "Season 02" "Season 02" = 1 := by
  have h1 : (normTokens "Season 02").dedup = ["season", "02"] := by decide
  rw [jaccard, h1]
  have h2 : ((["season", "02"] : List String).filter
      (fun t => (["season", "02"] : List String).contains t)).length = 2 := by decide
  have h3 : ((["season", "02"] : List String) ++
      (["season", "02"] : List String).filter
        (fun t => !(["season", "02"] : List String).contains t)).length = 2 := by decide
  rw [if_pos ⟨by decide, by decide⟩, h2, h3]
  norm_num

/-- C9 counterexample: for the file
`tv/Show Name (2019)/Season 02/Show.Name.S02E05.mkv` the season directory's
own name `"Season 02"` IS in the de-duplicated candidate list (the claim says
it never is), and a search oracle matching only the query `"Season 02"` makes
the resolver succeed through it. -/
theorem tv_fallback_counterexample :
    seasonFolderName "Season 02" = true ∧
    (("Season 02", (none : Option Nat)) ∈ dedupByLower (tvCandidateList none none
      ["tv", "Show Name (2019)", "Season 02", "Show.Name.S02E05.mkv"]
      "Show Name S02E05" none)) ∧
    try_tv_match_with_fallbacks
      (fun q _ => if q = "Season 02" then [⟨"Season 02", "", "", 0⟩] else [])
      none none ["tv", "Show Name (2019)", "Season 02", "Show.Name.S02E05.mkv"]
      "Show Name S02E05" none = some ⟨"Season 02", "", "", 0⟩ := by
  refine ⟨by decide, by decide, ?_⟩
  have hlist : dedupByLower (tvCandidateList none none
      ["tv", "Show Name (2019)", "Season 02", "Show.Name.S02E05.mkv"]
      "Show Name S02E05" none) =
      [("Show Name", none), ("Show Name S02E05", none), ("Season 02", none)] := by
    decide
  rw [try_tv_match_with_fallbacks, hlist]
  have hne : (("Show Name" : String) = "Season 02") = False := by simp
  have hne2 : (("Show Name S02E05" : String) = "Season 02") = False := by simp
  simp only [resolveLoop, hne, hne2, if_false, if_pos rfl]
  have hchoose : choose_best_tv [⟨"Season 02", "", "", 0⟩] "Season 02" none =
      some ⟨"Season 02", "", "", 0⟩ := by
    have hshown : TvCand.shownName ⟨"Season 02", "", "", 0⟩ = "Season 02" := by decide
    have hscore : scoreTv "Season 02" none ⟨"Season 02", "", "", 0⟩ = 0.72 := by
      rw [scoreTv, hshown, jaccard_season02]
      have hy : yearOfDate ("" : String) = none := by decide
      rw [hy]
      norm_num [tvYearScore, yearTruthy, popComponent]
    simp only [choose_best_tv, argmaxFirst, List.foldl_nil]
    rw [if_pos]
    rw [hscore]
    norm_num
  simp only [eq_self_iff_true, if_true,
    show choose_best_tv [] "Show Name" none = none from rfl,
    show choose_best_tv [] "Show Name S02E05" none = none from rfl]
  rw [hchoose]



/-- C9 amended: the resolver's query order is: for each de-duplicated
candidate, year-omitted then year-included, stopping at the first
gate-clearing result (the flattened `firstSome` semantics); and on the
season-layout scenario the candidate order is: filename via the secondary
tokenizer, the normalized guess, the grandparent (prepended because the
parent is season-named, carrying the year), then the season directory's own
name — which is used, not skipped; de-duplication by lower-cased title keeps
first occurrences (dropping the grandparent's year-carrying duplicate). -/
theorem tv_fallback_amended :
    (∀ (search : String → Option Nat → List TvCand)
        (cands : List (String × Option Nat)),
      resolveLoop search cands =
        firstSome (fun qt => choose_best_tv (search qt.1 qt.2) qt.1 qt.2)
          (queryPairs cands)) ∧
    tvCandidateList none none
        ["tv", "Show Name (2019)", "Season 02", "Show.Name.S02E05.mkv"]
        "Show Name S02E05" none =
      [("Show Name", none), ("Show Name S02E05", none), ("Show Name", some 2019),
       ("Season 02", none), ("Show Name", some 2019)] ∧
    dedupByLower
      [("Show Name", none), ("Show Name S02E05", none), ("Show Name", some 2019),
       ("Season 02", none), ("Show Name", some 2019)] =
      [("Show Name", none), ("Show Name S02E05", none), ("Season 02", none)] := by
  refine ⟨?_, by decide, by decide⟩
  intro search cands
  induction cands with
  | nil => rfl
  | cons ty rest ih =>
    obtain ⟨t, y⟩ := ty
    rw [resolveLoop]
    rw [queryPairs] at ih ⊢
    rw [List.flatMap_cons]
    simp only [List.cons_append, List.nil_append, firstSome]
    cases h1 : choose_best_tv (search t none) t none with
    | some s => rfl
    | none =>
      cases h2 : choose_best_tv (search t y) t y with
      | some s => rfl
      | none => exact ih


end MovieSpec

namespace MovieSpec

theorem foldl_id {α β : Type} (f : β → α → β) (b : β) (l : List α)
    (h : ∀ a x, f a x = a) : l.foldl f b = b := by
  induction l generalizing b with
  | nil => rfl
  | cons x xs ih => rw [List.foldl_cons, h, ih]

/-- C1: in dry-run mode the rename, sidecar-move, clutter-cleanup and pruning
steps leave the filesystem untouched, but `download_poster` and
`download_trailer_with_ytdlp` create the output directory BEFORE checking
`dry_run`: at the concrete failing input (a movie with a poster path, output
directory not yet existing — in dry-run the rename never created it) the
dry run mutates the filesystem, contradicting the claim. -/
theorem dry_run_fs_effects :
    (∀ (src dst : String) (fs : FS), rename_move true src dst fs = fs) ∧
    (∀ (srcFile destStem : String) (fs : FS),
      move_sidecars true srcFile destStem fs = fs) ∧
    (∀ (folder : String) (fs : FS), clean_clutter true folder fs = fs) ∧
    (∀ (root : String) (fs : FS), prune_empty_dirs true root fs = fs) ∧
    download_poster true "/p.jpg" "/media/Movie (2021)" ⟨[], []⟩ =
      ⟨[], ["/media/Movie (2021)"]⟩ ∧
    download_poster true "/p.jpg" "/media/Movie (2021)" ⟨[], []⟩ ≠ ⟨[], []⟩ ∧
    download_trailer_with_ytdlp true "/media/Movie (2021)" none ⟨[], []⟩ =
      ⟨[], ["/media/Movie (2021)"]⟩ ∧
    download_trailer_with_ytdlp true "/media/Movie (2021)" none ⟨[], []⟩ ≠ ⟨[], []⟩ := by
  refine ⟨?_, ?_, ?_, ?_, by decide, by decide, by decide, by decide⟩
  · intro src dst fs
    rfl
  · intro srcFile destStem fs
    rw [move_sidecars]
    exact foldl_id _ _ _ (fun a x => by simp)
  · intro folder fs
    rw [clean_clutter]
    by_cases h : (fs.dirs.contains folder) = true
    · simp only [h, Bool.not_true, Bool.false_eq_true, if_false]
      have h1 : List.foldl (fun acc d =>
          if (isSampleName (nameOf d) && false) = true then rmtreeUnder d acc else acc)
          fs (List.filter (fun d => decide (dirOf d = folder)) fs.dirs) = fs :=
        foldl_id _ _ _ (fun a x => by simp)
      rw [h1]
      exact foldl_id _ _ _ (fun a x => by simp)
    · simp only [Bool.not_eq_true] at h
      simp [h]
  · intro root fs
    rw [prune_empty_dirs]
    exact foldl_id _ _ _ (fun a x => by simp)

end MovieSpec
